import Mathlib

/-!
# Verification of the muxter path-routing engine

This file gives a shallow embedding, in Lean 4, of the core routing engine of
the muxter HTTP multiplexer, and proves properties of it.

The embedded code is the radix-trie implementation (`node`, `node.Insert`,
`node.insert`, `node.Lookup`, `node.IsSubdirNode`, `commonPrefixLength`),
the router front end (`Mux`, `Handle`, `ServeHTTPx`, the default redirect and
not-found handlers, the `MatchTrailingSlash` option), and the path-depth
stripping helper (`stripDepth`).

Modelling conventions:

* Go strings are modelled as `List Char` (`Str`).  The routing engine compares
  paths byte by byte; all paths in the specification are ASCII, where Go's
  byte indexing and rune iteration coincide with positions in the char list.
* Go's in-place pointer mutation is modelled functionally: each operation
  returns the updated tree.  Go's `insert` returns an interior pointer into the
  tree which the caller keeps inserting into; this is modelled by a
  defunctionalized continuation (`Cont`): the continuation is applied to the
  target node, and the updated target is put back where it sat in the tree.
  On a failed insertion Go leaves partially-created nodes in the tree and the
  router panics; the functional model returns the error and discards the
  partial update, so error-free insertions (the only ones observable through
  the router, which panics on error) agree with the source.
* Go panics are modelled as distinguished errors (`Err.emptyKey` for the
  out-of-range index taken on an empty fragment, reachable only for patterns
  that do not begin with a slash, which `Handle` rejects first).
* `http.Handler` values are opaque to the router; they are modelled by the
  inductive `Handler`, with one constructor for user handlers (tagged by a
  number) and one for each of the router's built-in default handlers, whose
  observable behaviour (status, `Location` header, body) is modelled by
  `serveHandler`.
* The `wildcardbackup` variable of `Lookup` is kept by the source across a
  backup jump, but the jump always lands on a wildcard-typed node, whose
  dispatch never consults the backup before it is reassigned; the model
  passes `none` at the jump, which is observably identical on trees built by
  `Insert` and makes the walk total on all trees.
-/

namespace Muxter

/-- Go strings, as lists of characters (bytes; all paths involved are ASCII). -/
abbrev Str := List Char

/-- `internal.Param`: one captured path parameter (a key/value pair of strings). -/
structure Param where
  Key : Str
  Value : Str
deriving DecidableEq, Repr

/-- The opaque `Handler` values held in the trie: user handlers are identified
by a numeric tag; the two built-in default handlers of the router are
distinguished constructors so that their observable responses can be given by
`serveHandler`. -/
inductive Handler where
  | hid (n : Nat)
  | defaultRedirectHandler
  | defaultNotFoundHandler
deriving DecidableEq, Repr

/-- The `value` struct stored at a trie node: the handler and the original
pattern string. -/
structure value where
  handler : Handler
  pattern : Str
deriving DecidableEq, Repr

/-- The node kind constants `static`, `wildcard`, `catchall`. -/
inductive NodeType where
  | static
  | wildcard
  | catchall
deriving DecidableEq, Repr

/-- The radix-trie `node` struct: literal key, optional value, static children
with the parallel `Indices` byte array, at most one wildcard child, at most
one catchall child, and the node kind. -/
inductive node where
  | mk (Key : Str) (Value : Option value) (Children : List node) (Indices : List Char)
       (Wildcard : Option node) (Catchall : Option node) (typ : NodeType)

def node.Key : node → Str | ⟨k, _, _, _, _, _, _⟩ => k

def node.Value : node → Option value | ⟨_, v, _, _, _, _, _⟩ => v

def node.Children : node → List node | ⟨_, _, c, _, _, _, _⟩ => c

def node.Indices : node → List Char | ⟨_, _, _, i, _, _, _⟩ => i

def node.Wildcard : node → Option node | ⟨_, _, _, _, w, _, _⟩ => w

def node.Catchall : node → Option node | ⟨_, _, _, _, _, c, _⟩ => c

def node.typ : node → NodeType | ⟨_, _, _, _, _, _, t⟩ => t

/-- Replace a node's `Value` field (models the assignment `n.Value = value`). -/
def node.withValue : node → Option value → node
  | ⟨k, _, c, i, w, ca, t⟩, v => ⟨k, v, c, i, w, ca, t⟩

/-- Replace a node's `Key` field (models the assignment `n.Key = n.Key[cp:]`). -/
def node.withKey : node → Str → node
  | ⟨_, v, c, i, w, ca, t⟩, k => ⟨k, v, c, i, w, ca, t⟩

/-- The root node `&node{}`: empty key, no value, no children, static. -/
def emptyNode : node := ⟨[], none, [], [], none, none, NodeType.static⟩

/-- `IsSubdirNode`: the node has a value and its key ends in a slash. -/
def node.IsSubdirNode (n : node) : Bool :=
  n.Value.isSome && n.Key.getLast? = some '/'

/-- `commonPrefixLength`: length of the longest common prefix of two strings. -/
def commonPrefixLength : Str → Str → Nat
  | a :: as, b :: bs => if a = b then 1 + commonPrefixLength as bs else 0
  | _, _ => 0

/-- Registration-time errors.  The source carries them as Go `error` values
(`errMultipleRegistrations`, the two `fmt.Errorf` mismatch messages, the
catchall message); the constructors record the same data the messages format.
`emptyKey` stands for the panic Go raises when `insert` indexes an empty
fragment. -/
inductive Err where
  | multipleRegistrations
  | mismatchedWildcards (existing given : Str)
  | segmentsAfterCatchall (expr : Str)
  | emptyKey
  | emptyPattern
  | missingLeadingSlash
deriving DecidableEq, Repr

/-- The pending rest of a registration, standing for what the Go caller does
with the node pointer returned by `insert`:
`done` — nothing further; `dynTerm post v` — insert the dynamic tail `post`
carrying the value; `dynThen seg rest v` — insert the dynamic segment `seg`
without a value, then recurse `Insert rest v` on its target;
`goRest rest v` — recurse `Insert rest v` on the target. -/
inductive Cont where
  | done
  | dynTerm (post : Str) (v : value)
  | dynThen (seg : Str) (rest : Str) (v : value)
  | goRest (rest : Str) (v : value)
deriving Repr

/-- Termination measure on continuations (amount of pattern left to insert). -/
def contMeasure : Cont → Nat
  | Cont.done => 0
  | Cont.dynTerm post _ => 2 * post.length + 1
  | Cont.dynThen seg rest _ => 2 * seg.length + 2 * rest.length + 4
  | Cont.goRest rest _ => 2 * rest.length + 3

mutual

/-- `node.Insert`: split the pattern at the first `:` or `*`, insert the
literal prefix without a value, then the dynamic segment, then recurse on the
tail after the next slash.  Registering segments after a catchall fails. -/
def node.Insert (n : node) (key : Str) (v : value) : Except Err node :=
  match key with
  | [] => node.insert n [] (some v) Cont.done
  | b0 :: key0 =>
    match (b0 :: key0).findIdx? (fun c => c = ':' || c = '*') with
    | none => node.insert n (b0 :: key0) (some v) Cont.done
    | some idx =>
      if idx = 0 then Except.error Err.emptyKey
      else
        let pre := (b0 :: key0).take idx
        let post := (b0 :: key0).drop idx
        match post.findIdx? (fun c => c = '/') with
        | none => node.insert n pre none (Cont.dynTerm post v)
        | some slashIdx =>
          if post.headD ' ' = '*' then
            Except.error (Err.segmentsAfterCatchall (post.take slashIdx))
          else
            node.insert n pre none
              (Cont.dynThen (post.take slashIdx) (post.drop slashIdx) v)
termination_by (2 * key.length + 2, 2, sizeOf n)
decreasing_by
  all_goals simp [contMeasure, Prod.lex_iff]
  all_goals omega

/-- `node.insert`: insert one pattern fragment at a node.  A `:` fragment goes
into the wildcard slot (same name reuses, different name errors), a `*`
fragment into the catchall slot, and a literal fragment into the static
children (splitting on common prefixes).  The continuation `k` is applied to
the node Go would return, and its result replaces that node in the tree. -/
def node.insert (n : node) (key : Str) (value : Option value) (k : Cont) :
    Except Err node :=
  match n with
  | node.mk Key Value Children Indices Wildcard Catchall typ =>
    match key with
    | [] => Except.error Err.emptyKey
    | b :: rest =>
      if b = ':' then
        match Wildcard with
        | some w =>
          if w.Key ≠ rest then
            Except.error (Err.mismatchedWildcards w.Key (b :: rest))
          else
            match value with
            | some v =>
              match w.Value with
              | some _ => Except.error Err.multipleRegistrations
              | none =>
                (applyCont k (w.withValue (some v))).map
                  (fun w2 => node.mk Key Value Children Indices (some w2) Catchall typ)
            | none =>
              (applyCont k w).map
                (fun w2 => node.mk Key Value Children Indices (some w2) Catchall typ)
        | none =>
          (applyCont k (node.mk rest value [] [] none none NodeType.wildcard)).map
            (fun w2 => node.mk Key Value Children Indices (some w2) Catchall typ)
      else if b = '*' then
        match Catchall with
        | some c =>
          if c.Key ≠ rest then
            Except.error (Err.mismatchedWildcards c.Key (b :: rest))
          else
            Except.error Err.multipleRegistrations
        | none =>
          (applyCont k (node.mk rest value [] [] none none NodeType.catchall)).map
            (fun c2 => node.mk Key Value Children Indices Wildcard (some c2) typ)
      else
        match insertChildren Children (b :: rest) value k with
        | Except.error e => Except.error e
        | Except.ok (some cs2) =>
          Except.ok (node.mk Key Value cs2 Indices Wildcard Catchall typ)
        | Except.ok none =>
          (applyCont k (node.mk (b :: rest) value [] [] none none NodeType.static)).map
            (fun t =>
              node.mk Key Value (Children ++ [t]) (Indices ++ [b]) Wildcard Catchall typ)
termination_by (contMeasure k, 1, sizeOf n)
decreasing_by
  all_goals simp [Prod.lex_iff]
  all_goals omega

/-- The `for i, childNode := range n.Children` loop of `insert`: scan the
static children for an exact key match or a non-empty common prefix, splitting
nodes as the source does.  Returns `none` when no child shares a prefix (the
caller then appends a fresh child and its index byte). -/
def insertChildren (children : List node) (key : Str) (value : Option value)
    (k : Cont) : Except Err (Option (List node)) :=
  match children with
  | [] => Except.ok none
  | c :: cs =>
    if key = c.Key then
      match value with
      | some v =>
        match c.Value with
        | some _ => Except.error Err.multipleRegistrations
        | none =>
          (applyCont k (c.withValue (some v))).map (fun c2 => some (c2 :: cs))
      | none => (applyCont k c).map (fun c2 => some (c2 :: cs))
    else
      let cp := commonPrefixLength c.Key key
      if cp = 0 then
        (insertChildren cs key value k).map
          (fun r => match r with
            | some cs2 => some (c :: cs2)
            | none => none)
      else if cp = c.Key.length then
        (node.insert c (key.drop cp) value k).map (fun c2 => some (c2 :: cs))
      else
        let trimmed := c.withKey (c.Key.drop cp)
        if cp = key.length then
          (applyCont k
              (node.mk key value [trimmed] [(c.Key.drop cp).headD ' '] none none
                NodeType.static)).map
            (fun b2 => some (b2 :: cs))
        else
          (applyCont k
              (node.mk (key.drop cp) value [] [] none none NodeType.static)).map
            (fun target =>
              some
                (node.mk (key.take cp) none [trimmed, target]
                    [(c.Key.drop cp).headD ' ', (key.drop cp).headD ' '] none none
                    NodeType.static ::
                  cs))
termination_by (contMeasure k, 1, sizeOf children)
decreasing_by
  all_goals simp [Prod.lex_iff]
  all_goals omega

/-- Resume the pending rest of the registration on the node `insert` returned. -/
def applyCont (k : Cont) (t : node) : Except Err node :=
  match k with
  | Cont.done => Except.ok t
  | Cont.dynTerm post v => node.insert t post (some v) Cont.done
  | Cont.dynThen seg rest v => node.insert t seg none (Cont.goRest rest v)
  | Cont.goRest rest v => node.Insert t rest v
termination_by (contMeasure k, 0, sizeOf t)
decreasing_by
  all_goals simp [contMeasure, Prod.lex_iff]
  all_goals omega

end

/-- The sentinel `redirectValue` returned by `Lookup` when a subtree pattern
is registered at the request path plus a trailing slash. -/
def redirectValue : value := ⟨Handler.defaultRedirectHandler, []⟩

/-- The deferred result fixup of `Lookup`: if the walk produced no result the
recorded `fallback` is returned instead. -/
def orFallback (r : Option value) (fallback : Option value) : Option value :=
  match r with
  | none => fallback
  | some v => some v

mutual

/-- One iteration of the `Walk` loop of `node.Lookup`, dispatching on the node
kind.  A static node consumes its key from the path (jumping to the remembered
wildcard sibling, or synthesizing a redirect, when the prefix fails); a
wildcard node binds one segment; a catchall node binds the whole remainder.
The source keeps `wildcardbackup` across the jump, but the jump target is a
wildcard-typed node which never reads it before it is reassigned, so the model
passes `none` there. -/
def node.lookupWalk (n : node) (path : Str) (params : List Param) (mts : Bool)
    (wildcardbackup : Option node) (fallback : Option value) :
    Option value × List Param :=
  match n with
  | node.mk Key Value Children Indices Wildcard Catchall typ =>
    match typ with
    | NodeType.static =>
      if path.take Key.length = Key then
        let path2 := path.drop Key.length
        if path2 = [] then
          (orFallback Value fallback, params)
        else
          let fallback2 :=
            if (node.mk Key Value Children Indices Wildcard Catchall typ).IsSubdirNode
            then Value else fallback
          node.lookupTail (node.mk Key Value Children Indices Wildcard Catchall
            NodeType.static) path2 params mts fallback2
      else
        match wildcardbackup with
        | some b => node.lookupWalk b path params mts none fallback
        | none =>
          if Value.isSome && path ++ ['/'] = Key then (some redirectValue, params)
          else (orFallback none fallback, params)
    | NodeType.wildcard =>
      match path.findIdx? (fun c => c = '/') with
      | none => (orFallback Value fallback, params ++ [⟨Key, path⟩])
      | some idx =>
        node.lookupTail (node.mk Key Value Children Indices Wildcard Catchall
          NodeType.wildcard) (path.drop idx) (params ++ [⟨Key, path.take idx⟩]) mts fallback
    | NodeType.catchall =>
      (orFallback Value fallback, params ++ [⟨Key, path⟩])
termination_by sizeOf n + sizeOf wildcardbackup
decreasing_by
  all_goals simp
  all_goals first
    | omega
    | (cases wildcardbackup <;> simp <;> omega)

/-- The shared tail of a `Walk` iteration: record the value as fallback under
the match-trailing-slash option, remember the wildcard child as backup, then
descend into the static child claiming the first path byte, else the catchall
child, else the wildcard child, else fail.  (The source indexes `path[0]`
here; the path is never empty at this point, and the model returns the
fallback for an empty path.) -/
def node.lookupTail (n : node) (path : Str) (params : List Param) (mts : Bool)
    (fallback : Option value) : Option value × List Param :=
  match n with
  | node.mk Key Value Children Indices Wildcard Catchall typ =>
    let fallback2 := if mts && path = ['/'] && Value.isSome then Value else fallback
    match path with
    | [] => (orFallback none fallback2, params)
    | targetIndice :: _ =>
      match node.lookupChildren Indices Children targetIndice path params mts Wildcard
          fallback2 with
      | some r => r
      | none =>
        match Catchall with
        | some ca => node.lookupWalk ca path params mts Wildcard fallback2
        | none =>
          match Wildcard with
          | some w => node.lookupWalk w path params mts none fallback2
          | none => (orFallback none fallback2, params)
termination_by sizeOf n
decreasing_by
  all_goals simp
  all_goals omega

/-- The `for i, c := range n.Indices` scan of `Lookup`: descend into the first
static child whose index byte equals the first path byte.  `none` when no
index matches (the walk then tries the catchall and wildcard children). -/
def node.lookupChildren (indices : List Char) (children : List node) (targetIndice : Char)
    (path : Str) (params : List Param) (mts : Bool) (backup : Option node)
    (fallback : Option value) : Option (Option value × List Param) :=
  match indices, children with
  | i :: is, c :: cs =>
    if i = targetIndice then some (node.lookupWalk c path params mts backup fallback)
    else node.lookupChildren is cs targetIndice path params mts backup fallback
  | _, _ => none
termination_by sizeOf children + sizeOf backup
decreasing_by
  all_goals simp
  all_goals omega

end

/-- `node.Lookup`: walk the trie from this node, returning the matched value
(or the redirect sentinel, or nothing) together with the parameters appended
during the walk. -/
def node.Lookup (n : node) (path : Str) (params : List Param)
    (matchTrailingSlash : Bool) : Option value × List Param :=
  node.lookupWalk n path params matchTrailingSlash none none

/-- The routing `Context` handed to handlers: the original request path, the
matched pattern, and the captured parameters. -/
structure Context where
  ogReqPath : Str
  pattern : Str
  params : List Param
deriving DecidableEq, Repr

/-- The observable part of an HTTP response written by the router's built-in
handlers: status code, optional `Location` header, body. -/
structure Response where
  status : Nat
  location : Option Str
  body : String
deriving DecidableEq, Repr

/-- What each handler writes when invoked: the default redirect handler sets
`Location` to the original request path plus a slash and writes status 301
with no body; the default not-found handler writes 404 with the standard
status text; a user handler is modelled as writing a plain 200. -/
def serveHandler (h : Handler) (c : Context) : Response :=
  match h with
  | Handler.hid _ => ⟨200, none, ""⟩
  | Handler.defaultRedirectHandler => ⟨301, some (c.ogReqPath ++ ['/']), ""⟩
  | Handler.defaultNotFoundHandler => ⟨404, none, "Not Found\n"⟩

/-- The `Mux` state the routing claims depend on: the trie root and the
match-trailing-slash option (`MatchTrailingSlash`; default `false`). -/
structure Mux where
  root : node
  matchTrailingSlash : Bool

/-- `muxter.New()`: empty root, option off. -/
def New : Mux := ⟨emptyNode, false⟩

/-- `Mux.Handle`: validate the pattern and handler, then insert
`value{handler, pattern}` into the trie.  Go panics on a validation or
insertion failure; the model returns the error. -/
def Mux.Handle (m : Mux) (pattern : Str) (h : Handler) : Except Err Mux :=
  match pattern with
  | [] => Except.error Err.emptyPattern
  | b :: _ =>
    if b ≠ '/' then Except.error Err.missingLeadingSlash
    else
      (node.Insert m.root pattern ⟨h, pattern⟩).map (fun r => ⟨r, m.matchTrailingSlash⟩)

/-- `Mux.ServeHTTPx`: look the path up in the trie; on a match invoke the
value's handler with the pattern recorded in the context, otherwise invoke
the default not-found handler. -/
def Mux.ServeHTTPx (m : Mux) (path : Str) : Response × Context :=
  let r := node.Lookup m.root path [] m.matchTrailingSlash
  match r with
  | (some v, params) =>
    let c : Context := ⟨path, v.pattern, params⟩
    (serveHandler v.handler c, c)
  | (none, params) =>
    let c : Context := ⟨path, [], params⟩
    (serveHandler Handler.defaultNotFoundHandler c, c)

/-- Register a list of patterns, numbering the user handlers in order. -/
def registerAll (m : Mux) (patterns : List Str) (i : Nat := 0) : Except Err Mux :=
  match patterns with
  | [] => Except.ok m
  | p :: ps => (m.Handle p (Handler.hid i)).bind (fun m2 => registerAll m2 ps (i + 1))

/-- The loop of `stripDepth`: Go iterates `for i = range value`, counting the
slashes seen at positions other than 0, and leaves `i` at the position where
the count reached `depth`, or at the last position when the string runs out.
Returns the final value of `i`. -/
def stripLoop (value : Str) (depth : Nat) (i : Nat) (seen : Nat) : Nat :=
  if i < value.length then
    let seen2 := if i ≠ 0 && value.getD i ' ' = '/' then seen + 1 else seen
    if seen2 = depth then i
    else if i + 1 < value.length then stripLoop value depth (i + 1) seen2
    else i
  else i
termination_by value.length - i
decreasing_by
  omega

/-- `stripDepth`: for a positive depth, scan for the depth-th slash after
position 0; if the scan stopped on the last byte return `"/"` (the comparison
`i == len(value)-1` is on Go ints, hence the cast), else return the suffix of
the path from the stop position on. -/
def stripDepth (value : Str) (depth : Nat) : Str :=
  if depth = 0 then value
  else
    let i := stripLoop value depth 0 0
    if (i : Int) = (value.length : Int) - 1 then ['/']
    else value.drop i

/-- A fuel-bounded executable twin of the lookup walk, used to evaluate
`node.lookupWalk` on concrete inputs by kernel reduction (the faithful
definition recurses by well-founded recursion, which the kernel cannot
evaluate).  `lookupEval_sound` proves that whenever the twin answers within
its fuel, the faithful walk returns the same result; the twin is never used
in a claim statement. -/
def lookupEval (fuel : Nat) (n : node) (path : Str) (params : List Param) (mts : Bool)
    (wildcardbackup : Option node) (fallback : Option value) :
    Option (Option value × List Param) :=
  match fuel with
  | 0 => none
  | fuel + 1 =>
    match n with
    | node.mk Key Value Children Indices Wildcard Catchall typ =>
      match typ with
      | NodeType.static =>
        if path.take Key.length = Key then
          let path2 := path.drop Key.length
          if path2 = [] then
            some (orFallback Value fallback, params)
          else
            let fallback2 :=
              if (node.mk Key Value Children Indices Wildcard Catchall
                  NodeType.static).IsSubdirNode
              then Value else fallback
            let fallback3 := if mts && path2 = ['/'] && Value.isSome then Value else fallback2
            match (Indices.zip Children).find? (fun p => p.1 = path2.headD ' ') with
            | some p => lookupEval fuel p.2 path2 params mts Wildcard fallback3
            | none =>
              match Catchall with
              | some ca => lookupEval fuel ca path2 params mts Wildcard fallback3
              | none =>
                match Wildcard with
                | some w => lookupEval fuel w path2 params mts none fallback3
                | none => some (orFallback none fallback3, params)
        else
          match wildcardbackup with
          | some b => lookupEval fuel b path params mts none fallback
          | none =>
            if Value.isSome && path ++ ['/'] = Key then some (some redirectValue, params)
            else some (orFallback none fallback, params)
      | NodeType.wildcard =>
        match path.findIdx? (fun c => c = '/') with
        | none => some (orFallback Value fallback, params ++ [⟨Key, path⟩])
        | some idx =>
          let path2 := path.drop idx
          let params2 := params ++ [⟨Key, path.take idx⟩]
          let fallback3 := if mts && path2 = ['/'] && Value.isSome then Value else fallback
          if path2 = [] then some (orFallback none fallback3, params2)
          else
          match (Indices.zip Children).find? (fun p => p.1 = path2.headD ' ') with
          | some p => lookupEval fuel p.2 path2 params2 mts Wildcard fallback3
          | none =>
            match Catchall with
            | some ca => lookupEval fuel ca path2 params2 mts Wildcard fallback3
            | none =>
              match Wildcard with
              | some w => lookupEval fuel w path2 params2 mts none fallback3
              | none => some (orFallback none fallback3, params2)
      | NodeType.catchall =>
        some (orFallback Value fallback, params ++ [⟨Key, path⟩])

theorem lookupChildren_eq (indices : List Char) (children : List node) (b : Char)
    (path : Str) (params : List Param) (mts : Bool) (backup : Option node)
    (fallback : Option value) :
    node.lookupChildren indices children b path params mts backup fallback =
      ((indices.zip children).find? (fun p => p.1 = b)).map
        (fun p => node.lookupWalk p.2 path params mts backup fallback) := by
  induction indices generalizing children with
  | nil => cases children <;> simp [node.lookupChildren]
  | cons i is ih =>
    cases children with
    | nil => simp [node.lookupChildren]
    | cons c cs =>
      by_cases h : i = b
      · simp [node.lookupChildren, h, List.find?, List.zip]
      · simp [node.lookupChildren, h, List.find?, ih, List.zip]

theorem lookupEval_sound (fuel : Nat) (n : node) (path : Str) (params : List Param)
    (mts : Bool) (backup : Option node) (fallback : Option value)
    (r : Option value × List Param)
    (h : lookupEval fuel n path params mts backup fallback = some r) :
    node.lookupWalk n path params mts backup fallback = r := by
  induction fuel generalizing n path params backup fallback r with
  | zero => simp [lookupEval] at h
  | succ fuel ih =>
    obtain ⟨Key, Value, Children, Indices, Wildcard, Catchall, typ⟩ := n
    cases typ with
    | static =>
      rw [node.lookupWalk.eq_def]
      rw [lookupEval.eq_def] at h
      dsimp only at h ⊢
      by_cases hpre : path.take Key.length = Key
      · simp only [hpre, if_true] at h ⊢
        by_cases hempty : path.drop Key.length = []
        · simp only [hempty, if_true] at h ⊢
          exact (Option.some_inj.mp h)
        · simp only [hempty, if_false] at h ⊢
          rw [node.lookupTail.eq_def]
          cases hpath2 : path.drop Key.length with
          | nil => exact absurd hpath2 hempty
          | cons b0 rest0 =>
            rw [hpath2] at h
            dsimp only at h ⊢
            rw [lookupChildren_eq]
            simp only [List.headD_cons] at h
            cases hfind : ((Indices.zip Children).find? (fun p => p.1 = b0)) with
            | some p =>
              rw [hfind] at h
              dsimp only [Option.map]
              exact ih _ _ _ _ _ _ h
            | none =>
              rw [hfind] at h
              dsimp only [Option.map]
              cases Catchall with
              | some ca => exact ih _ _ _ _ _ _ h
              | none =>
                cases Wildcard with
                | some w => exact ih _ _ _ _ _ _ h
                | none => exact (Option.some_inj.mp h)
      · simp only [hpre, if_false] at h ⊢
        cases backup with
        | some b => exact ih _ _ _ _ _ _ h
        | none =>
          by_cases hred : (Value.isSome && path ++ ['/'] = Key : Bool)
          · simp only [hred, if_true] at h ⊢
            exact (Option.some_inj.mp h)
          · simp only [hred, if_false] at h ⊢
            exact (Option.some_inj.mp h)
    | wildcard =>
      rw [node.lookupWalk.eq_def]
      rw [lookupEval.eq_def] at h
      dsimp only at h ⊢
      cases hidx : path.findIdx? (fun c => c = '/') with
      | none =>
        rw [hidx] at h
        dsimp only at h
        exact (Option.some_inj.mp h)
      | some idx =>
        rw [hidx] at h
        dsimp only at h ⊢
        rw [node.lookupTail.eq_def]
        cases hpath2 : path.drop idx with
        | nil =>
          rw [hpath2] at h
          rw [if_pos rfl] at h
          dsimp only
          exact (Option.some_inj.mp h)
        | cons b0 rest0 =>
          rw [hpath2] at h
          rw [if_neg (List.cons_ne_nil b0 rest0)] at h
          dsimp only at h ⊢
          rw [lookupChildren_eq]
          simp only [List.headD_cons] at h
          cases hfind : ((Indices.zip Children).find? (fun p => p.1 = b0)) with
          | some p =>
            rw [hfind] at h
            dsimp only [Option.map]
            exact ih _ _ _ _ _ _ h
          | none =>
            rw [hfind] at h
            dsimp only [Option.map]
            cases Catchall with
            | some ca => exact ih _ _ _ _ _ _ h
            | none =>
              cases Wildcard with
              | some w => exact ih _ _ _ _ _ _ h
              | none => exact (Option.some_inj.mp h)
    | catchall =>
      rw [node.lookupWalk.eq_def]
      rw [lookupEval.eq_def] at h
      dsimp only at h ⊢
      exact (Option.some_inj.mp h)


/-- A fuel-bounded executable twin of `Mux.ServeHTTPx`, evaluating the
request dispatch by kernel reduction; `serveEval_sound` ties it to the
faithful definition. -/
def serveEval (fuel : Nat) (m : Mux) (path : Str) : Option (Response × Context) :=
  match lookupEval fuel m.root path [] m.matchTrailingSlash none none with
  | none => none
  | some (some v, params) =>
    some (serveHandler v.handler ⟨path, v.pattern, params⟩, ⟨path, v.pattern, params⟩)
  | some (none, params) =>
    some (serveHandler Handler.defaultNotFoundHandler ⟨path, [], params⟩,
      ⟨path, [], params⟩)

/-- Whenever `serveEval` answers within its fuel, `Mux.ServeHTTPx` returns the
same response and context. -/
theorem serveEval_sound (fuel : Nat) (m : Mux) (path : Str) (r : Response × Context)
    (h : serveEval fuel m path = some r) : Mux.ServeHTTPx m path = r := by
  rw [serveEval.eq_def] at h
  cases hl : lookupEval fuel m.root path [] m.matchTrailingSlash none none with
  | none => rw [hl] at h; exact absurd h (by simp)
  | some p =>
    rw [hl] at h
    obtain ⟨ov, params⟩ := p
    have hlook : node.Lookup m.root path [] m.matchTrailingSlash = (ov, params) :=
      lookupEval_sound fuel _ _ _ _ _ _ _ hl
    rw [Mux.ServeHTTPx]
    rw [hlook]
    cases ov with
    | some v => dsimp only at h ⊢; exact Option.some_inj.mp h
    | none => dsimp only at h ⊢; exact Option.some_inj.mp h

/-- The index of the `k`-th slash at a position `≥ i` (position 0 never
counts), scanning left to right; `none` when there are fewer than `k` such
slashes.  Used to state claim C6. -/
def nthSlashFrom (value : Str) (i k : Nat) : Option Nat :=
  if i < value.length then
    if i ≠ 0 && value.getD i ' ' = '/' then
      if k = 1 then some i else nthSlashFrom value (i + 1) (k - 1)
    else nthSlashFrom value (i + 1) k
  else none
termination_by value.length - i
decreasing_by
  all_goals omega

/-- A found slash index lies in range, is not position 0, and holds a slash. -/
theorem nthSlashFrom_bounds (value : Str) (i k : Nat) :
    ∀ j, nthSlashFrom value i k = some j →
      i ≤ j ∧ j < value.length ∧ j ≠ 0 ∧ value.getD j ' ' = '/' := by
  induction i, k using nthSlashFrom.induct value with
  | case1 i hlt hcond =>
    intro j h
    rw [nthSlashFrom.eq_def] at h
    rw [if_pos hlt, if_pos hcond, if_pos rfl] at h
    injection h with h
    subst h
    simp only [Bool.and_eq_true, decide_eq_true_eq] at hcond
    exact ⟨Nat.le_refl _, hlt, hcond.1, hcond.2⟩
  | case2 i k hlt hcond hk ih =>
    intro j h
    rw [nthSlashFrom.eq_def] at h
    rw [if_pos hlt, if_pos hcond, if_neg hk] at h
    obtain ⟨h1, h2, h3, h4⟩ := ih j h
    exact ⟨by omega, h2, h3, h4⟩
  | case3 i k hlt hcond ih =>
    intro j h
    rw [nthSlashFrom.eq_def] at h
    rw [if_pos hlt, if_neg hcond] at h
    obtain ⟨h1, h2, h3, h4⟩ := ih j h
    exact ⟨by omega, h2, h3, h4⟩
  | case4 i k hlt =>
    intro j h
    rw [nthSlashFrom.eq_def] at h
    rw [if_neg hlt] at h
    exact absurd h (by simp)

/-- The scan loop of `stripDepth` stops at the index of the depth-th slash
found at a position other than 0, or at the last index when there are fewer
such slashes. -/
theorem stripLoop_spec (value : Str) (depth : Nat) : ∀ (m i seen : Nat),
    value.length - i ≤ m → i < value.length → seen < depth →
    stripLoop value depth i seen =
      (nthSlashFrom value i (depth - seen)).getD (value.length - 1) := by
  intro m
  induction m with
  | zero => intro i seen hm hi hseen; omega
  | succ m ih =>
    intro i seen hm hi hseen
    rw [stripLoop.eq_def, nthSlashFrom.eq_def]
    rw [if_pos hi, if_pos hi]
    by_cases hsl : (i ≠ 0 && value.getD i ' ' = '/') = true
    · rw [if_pos hsl, if_pos hsl]
      by_cases hdep : seen + 1 = depth
      · have hk1 : depth - seen = 1 := by omega
        rw [hk1, if_pos hdep, if_pos rfl, Option.getD_some]
      · have hk1 : ¬depth - seen = 1 := by omega
        rw [if_neg hk1, if_neg hdep]
        by_cases hnext : i + 1 < value.length
        · rw [if_pos hnext]
          have heq := ih (i + 1) (seen + 1) (by omega) hnext (by omega)
          rw [heq]
          have : depth - seen - 1 = depth - (seen + 1) := by omega
          rw [this]
        · rw [if_neg hnext]
          rw [nthSlashFrom.eq_def]
          rw [if_neg (by omega : ¬i + 1 < value.length), Option.getD_none]
          omega
    · rw [if_neg hsl, if_neg hsl]
      have hdep : ¬seen = depth := by omega
      rw [if_neg hdep]
      by_cases hnext : i + 1 < value.length
      · rw [if_pos hnext]
        exact ih (i + 1) seen (by omega) hnext hseen
      · rw [if_neg hnext]
        rw [nthSlashFrom.eq_def]
        rw [if_neg (by omega : ¬i + 1 < value.length), Option.getD_none]
        omega

/-- Written from the words of the specification (claim C6): the stripped path
is obtained by removing everything up to and including the depth-th slash
encountered after position 0, a missing leading slash being treated as if one
were present; depth 0 leaves the path unchanged, and when fewer than `depth`
such slashes exist the stripped path is the root path. -/
def stripDepthSpec (value : Str) (depth : Nat) : Str :=
  if depth = 0 then value
  else ((nthSlashFrom value 0 depth).map (fun j => '/' :: value.drop (j + 1))).getD ['/']

/-- C6: for every non-empty request path and every depth, the stripped path
computed by `stripDepth` is the path with everything before the depth-th `/`
encountered after position 0 removed and a leading `/` kept in its place
(equivalently: everything up to and including that slash is removed and the
missing leading slash is treated as if one were present); depth 0 leaves the
path unchanged, and when the depth meets or exceeds the available slashes the
result is `"/"` (`stripDepthSpec` spells this out from the claim's words).
The empty path is the one exception, settled by `claim_C6_counterexample`. -/
theorem claim_C6 (value : Str) (depth : Nat) (hne : value ≠ []) :
    stripDepth value depth = stripDepthSpec value depth := by
  unfold stripDepth stripDepthSpec
  by_cases h0 : depth = 0
  · simp [h0]
  · rw [if_neg h0, if_neg h0]
    have hlen : 0 < value.length := List.length_pos.mpr hne
    have hloop := stripLoop_spec value depth value.length 0 0 (by omega) hlen
      (by omega)
    rw [Nat.sub_zero] at hloop
    cases hnth : nthSlashFrom value 0 depth with
    | some j =>
      rw [hnth, Option.getD_some] at hloop
      obtain ⟨-, hjlt, -, hslash⟩ := nthSlashFrom_bounds value 0 depth j hnth
      rw [hloop]
      by_cases hlast : j = value.length - 1
      · rw [if_pos (by omega : (j : Int) = (value.length : Int) - 1)]
        have h1 : j + 1 = value.length := by omega
        simp [h1]
      · rw [if_neg (by omega : ¬(j : Int) = (value.length : Int) - 1)]
        rw [List.drop_eq_getElem_cons hjlt]
        rw [← List.getD_eq_getElem value ' ' hjlt, hslash]
        simp
    | none =>
      rw [hnth, Option.getD_none] at hloop
      rw [hloop]
      rw [if_pos (by omega : ((value.length - 1 : Nat) : Int) = (value.length : Int) - 1)]
      simp

/-- The claim quantifies over every request path; on the empty path the code
returns the empty path where the claim's reading demands `"/"` (for any
depth at least the number of available segments, here any positive depth):
the Go loop leaves `i = 0` and the `i == len(value)-1` test compares `0`
with `-1`. -/
theorem claim_C6_counterexample :
    stripDepth [] 1 = ([] : Str) ∧ stripDepthSpec [] 1 = ['/'] ∧ ([] : Str) ≠ ['/'] := by
  refine ⟨?_, ?_, by simp⟩
  · simp [stripDepth, stripLoop]
  · simp [stripDepthSpec, nthSlashFrom]

/-- Witness for `claim_C6` at the path `/some/long/segment` with depth 2
(the table-driven test case of `TestStripPathDepth`). -/
theorem claim_C6_witness :
    ("/some/long/segment".toList ≠ ([] : Str)) ∧
      stripDepth "/some/long/segment".toList 2 = stripDepthSpec "/some/long/segment".toList 2 :=
  ⟨by decide, claim_C6 "/some/long/segment".toList 2 (by decide)⟩

/-- The trie obtained by registering `/user/:id`, `/user/:id/posts`, and
`/user/me`; `claim_C1` checks it against `registerAll`. -/
def userTree : node :=
  node.mk [] none
    [node.mk "/user/".toList none
      [node.mk "me".toList (some ⟨Handler.hid 2, "/user/me".toList⟩) [] [] none none
        NodeType.static]
      ['m']
      (some (node.mk "id".toList (some ⟨Handler.hid 0, "/user/:id".toList⟩)
        [node.mk "/posts".toList (some ⟨Handler.hid 1, "/user/:id/posts".toList⟩) [] [] none
          none NodeType.static]
        ['/'] none none NodeType.wildcard))
      none NodeType.static]
    ['/'] none none NodeType.static

theorem userTree_build :
    registerAll New ["/user/:id".toList, "/user/:id/posts".toList, "/user/me".toList] =
      Except.ok ⟨userTree, false⟩ := by
  simp [registerAll, New, Mux.Handle, node.Insert, node.insert, insertChildren, applyCont,
    commonPrefixLength, emptyNode, node.Key, node.Value, node.withValue, node.withKey,
    Except.map, Except.bind, userTree]

theorem userTree_me :
    node.Lookup userTree "/user/me".toList [] false =
      (some ⟨Handler.hid 2, "/user/me".toList⟩, []) :=
  lookupEval_sound 100 _ _ _ _ _ _ _ (by decide)

theorem userTree_42 :
    node.Lookup userTree "/user/42".toList [] false =
      (some ⟨Handler.hid 0, "/user/:id".toList⟩, [⟨"id".toList, "42".toList⟩]) :=
  lookupEval_sound 100 _ _ _ _ _ _ _ (by decide)

theorem userTree_me_posts :
    node.Lookup userTree "/user/me/posts".toList [] false = (none, []) :=
  lookupEval_sound 100 _ _ _ _ _ _ _ (by decide)

theorem userTree_me_posts_404 :
    (Mux.ServeHTTPx ⟨userTree, false⟩ "/user/me/posts".toList).1.status = 404 := by
  rw [serveEval_sound 100 ⟨userTree, false⟩ "/user/me/posts".toList
    (⟨404, none, "Not Found\n"⟩, ⟨"/user/me/posts".toList, [], []⟩) (by decide)]

theorem staticDeadEnd_resumes_at_backup (K : Str) (V : Option value) (C : List node)
    (I : List Char) (W Ca : Option node) (b : node) (path : Str) (params : List Param)
    (mts : Bool) (fb : Option value) (h : ¬path.take K.length = K) :
    node.lookupWalk (node.mk K V C I W Ca NodeType.static) path params mts (some b) fb =
      node.lookupWalk b path params mts none fb := by
  rw [node.lookupWalk.eq_def]
  dsimp only
  rw [if_neg h]

/-- C1: deterministic precedence of lookup.  The trie built from
`/user/:id`, `/user/:id/posts`, `/user/me` routes `/user/me` to the static
pattern, `/user/42` to `/user/:id` with `id = "42"`, and `/user/me/posts`
to nothing (the router answers 404): a static child claiming the first path
byte is consulted before the wildcard, and when the chosen static branch
dead-ends mid-path the walk resumes only at the wildcard sibling remembered
at the most recent branch, with the path unchanged (the universally
quantified conjunct). -/
theorem claim_C1 :
    registerAll New ["/user/:id".toList, "/user/:id/posts".toList, "/user/me".toList] =
        Except.ok ⟨userTree, false⟩ ∧
      (∀ (K : Str) (V : Option value) (C : List node) (I : List Char) (W Ca : Option node)
          (b : node) (path : Str) (params : List Param) (mts : Bool) (fb : Option value),
        ¬path.take K.length = K →
        node.lookupWalk (node.mk K V C I W Ca NodeType.static) path params mts (some b) fb =
          node.lookupWalk b path params mts none fb) ∧
      node.Lookup userTree "/user/me".toList [] false =
        (some ⟨Handler.hid 2, "/user/me".toList⟩, []) ∧
      node.Lookup userTree "/user/42".toList [] false =
        (some ⟨Handler.hid 0, "/user/:id".toList⟩, [⟨"id".toList, "42".toList⟩]) ∧
      node.Lookup userTree "/user/me/posts".toList [] false = (none, []) ∧
      (Mux.ServeHTTPx ⟨userTree, false⟩ "/user/me/posts".toList).1.status = 404 :=
  ⟨userTree_build, staticDeadEnd_resumes_at_backup, userTree_me, userTree_42,
    userTree_me_posts, userTree_me_posts_404⟩

/-- Witness for the universally quantified conjunct of `claim_C1`: at the
static node keyed `"me"` the path `"42"` dead-ends, and the walk restarts at
the remembered wildcard sibling with the path unchanged. -/
theorem claim_C1_witness :
    (¬("42".toList : Str).take "me".toList.length = "me".toList) ∧
      node.lookupWalk (node.mk "me".toList none [] [] none none NodeType.static)
          "42".toList [] false
          (some (node.mk "id".toList (some ⟨Handler.hid 0, "/user/:id".toList⟩) [] [] none
            none NodeType.wildcard)) none =
        node.lookupWalk
          (node.mk "id".toList (some ⟨Handler.hid 0, "/user/:id".toList⟩) [] [] none none
            NodeType.wildcard) "42".toList [] false none none :=
  ⟨by decide, claim_C1.2.1 _ _ _ _ _ _ _ _ _ _ _ (by decide)⟩

/-- The trie obtained by registering `/api/v1/books` (fixed) and
`/api/v1/books/` (subtree); `claim_C2` checks it against `registerAll`. -/
def booksTree : node :=
  node.mk [] none
    [node.mk "/api/v1/books".toList (some ⟨Handler.hid 0, "/api/v1/books".toList⟩)
      [node.mk "/".toList (some ⟨Handler.hid 1, "/api/v1/books/".toList⟩) [] [] none none
        NodeType.static]
      ['/'] none none NodeType.static]
    ['/'] none none NodeType.static

/-- The trie obtained by registering the two nested subtree patterns `/a/`
and `/a/b/`; `claim_C2` checks it against `registerAll`. -/
def abTree : node :=
  node.mk [] none
    [node.mk "/a/".toList (some ⟨Handler.hid 0, "/a/".toList⟩)
      [node.mk "b/".toList (some ⟨Handler.hid 1, "/a/b/".toList⟩) [] [] none none
        NodeType.static]
      ['b'] none none NodeType.static]
    ['/'] none none NodeType.static

theorem booksTree_build :
    registerAll New ["/api/v1/books".toList, "/api/v1/books/".toList] =
      Except.ok ⟨booksTree, false⟩ := by
  simp [registerAll, New, Mux.Handle, node.Insert, node.insert, insertChildren, applyCont,
    commonPrefixLength, emptyNode, node.Key, node.Value, node.withValue, node.withKey,
    Except.map, Except.bind, booksTree]

theorem abTree_build :
    registerAll New ["/a/".toList, "/a/b/".toList] = Except.ok ⟨abTree, false⟩ := by
  simp [registerAll, New, Mux.Handle, node.Insert, node.insert, insertChildren, applyCont,
    commonPrefixLength, emptyNode, node.Key, node.Value, node.withValue, node.withKey,
    Except.map, Except.bind, abTree]

theorem booksTree_fixed :
    node.Lookup booksTree "/api/v1/books".toList [] false =
      (some ⟨Handler.hid 0, "/api/v1/books".toList⟩, []) :=
  lookupEval_sound 100 _ _ _ _ _ _ _ (by decide)

theorem booksTree_subtree :
    node.Lookup booksTree "/api/v1/books/cats_cradle".toList [] false =
      (some ⟨Handler.hid 1, "/api/v1/books/".toList⟩, []) :=
  lookupEval_sound 100 _ _ _ _ _ _ _ (by decide)

theorem abTree_deep :
    node.Lookup abTree "/a/b/c".toList [] false =
      (some ⟨Handler.hid 1, "/a/b/".toList⟩, []) :=
  lookupEval_sound 100 _ _ _ _ _ _ _ (by decide)

theorem abTree_shallow :
    node.Lookup abTree "/a/x".toList [] false =
      (some ⟨Handler.hid 0, "/a/".toList⟩, []) :=
  lookupEval_sound 100 _ _ _ _ _ _ _ (by decide)

/-- The singleton trie holding one static subtree pattern `p ++ "/"`. -/
def soloSubtree (p : Str) (h : Handler) : node :=
  node.mk [] none
    [node.mk (p ++ ['/']) (some ⟨h, p ++ ['/']⟩) [] [] none none NodeType.static]
    [p.headD ' '] none none NodeType.static

theorem soloSubtree_handle (P' : Str) (h : Handler)
    (hdyn : (('/' :: P') ++ ['/']).findIdx? (fun c => c = ':' || c = '*') = none) :
    Mux.Handle New (('/' :: P') ++ ['/']) h =
      Except.ok ⟨soloSubtree ('/' :: P') h, false⟩ := by
  rw [Mux.Handle.eq_def]
  dsimp only [List.cons_append]
  rw [if_neg (by simp)]
  rw [node.Insert.eq_def]
  dsimp only
  rw [show ('/' :: (P' ++ ['/'])).findIdx? (fun c => c = ':' || c = '*') = none by
    simpa using hdyn]
  simp only [New, emptyNode, node.insert, insertChildren, applyCont, Except.map,
    List.nil_append, soloSubtree, List.headD_cons]
  simp

theorem soloSubtree_lookup (P' : Str) (h : Handler) :
    node.Lookup (soloSubtree ('/' :: P') h) ('/' :: P') [] false =
      (some redirectValue, []) := by
  rw [node.Lookup, node.lookupWalk.eq_def]
  dsimp only [soloSubtree]
  rw [if_pos (by simp)]
  rw [if_neg (by simp)]
  rw [node.lookupTail.eq_def]
  simp only [List.length_nil, List.drop_zero, node.IsSubdirNode, node.Value, node.Key,
    Option.isSome_none, Bool.false_and, Bool.and_false]
  rw [node.lookupChildren.eq_def]
  dsimp only [List.headD_cons]
  rw [if_pos rfl]
  rw [node.lookupWalk.eq_def]
  dsimp only
  rw [if_neg (by
    intro hcontra
    have := congrArg List.length hcontra
    simp [List.length_take] at this)]
  rw [if_pos (by simp)]

theorem soloSubtree_redirect (P' : Str) (h : Handler) :
    Mux.ServeHTTPx ⟨soloSubtree ('/' :: P') h, false⟩ ('/' :: P') =
      (⟨301, some (('/' :: P') ++ ['/']), ""⟩, ⟨'/' :: P', [], []⟩) := by
  rw [Mux.ServeHTTPx]
  rw [show node.Lookup (Mux.mk (soloSubtree ('/' :: P') h) false).root ('/' :: P') []
      (Mux.mk (soloSubtree ('/' :: P') h) false).matchTrailingSlash =
      (some redirectValue, []) from soloSubtree_lookup P' h]
  rfl

/-- C3: redirect synthesis and exclusivity.  For every static pattern
`P ++ "/"` registered alone (so no other handler can match `P`), looking up
`P` returns the redirect outcome, and the router responds with status 301,
`Location` set to the original request path followed by `"/"`, and no body.
The method plays no role in routing, so the `POST /dir` scenario is the
concrete conjunct at `P = "/dir"`. -/
theorem claim_C3 :
    (∀ (P' : Str) (h : Handler),
      (('/' :: P') ++ ['/']).findIdx? (fun c => c = ':' || c = '*') = none →
      Mux.Handle New (('/' :: P') ++ ['/']) h =
          Except.ok ⟨soloSubtree ('/' :: P') h, false⟩ ∧
        node.Lookup (soloSubtree ('/' :: P') h) ('/' :: P') [] false =
          (some redirectValue, []) ∧
        Mux.ServeHTTPx ⟨soloSubtree ('/' :: P') h, false⟩ ('/' :: P') =
          (⟨301, some (('/' :: P') ++ ['/']), ""⟩, ⟨'/' :: P', [], []⟩)) ∧
      Mux.ServeHTTPx ⟨soloSubtree ('/' :: "dir".toList) (Handler.hid 0), false⟩
          ('/' :: "dir".toList) =
        (⟨301, some (('/' :: "dir".toList) ++ ['/']), ""⟩, ⟨'/' :: "dir".toList, [], []⟩) :=
  ⟨fun P' h hdyn =>
    ⟨soloSubtree_handle P' h hdyn, soloSubtree_lookup P' h, soloSubtree_redirect P' h⟩,
    soloSubtree_redirect "dir".toList (Handler.hid 0)⟩

/-- Witness for the universally quantified part of `claim_C3`, at the
pattern `/dir/` (request path `/dir`). -/
theorem claim_C3_witness :
    ((('/' :: "dir".toList) ++ ['/']).findIdx? (fun c => c = ':' || c = '*') = none) ∧
      (Mux.Handle New (('/' :: "dir".toList) ++ ['/']) (Handler.hid 0) =
          Except.ok ⟨soloSubtree ('/' :: "dir".toList) (Handler.hid 0), false⟩ ∧
        node.Lookup (soloSubtree ('/' :: "dir".toList) (Handler.hid 0))
            ('/' :: "dir".toList) [] false = (some redirectValue, []) ∧
        Mux.ServeHTTPx ⟨soloSubtree ('/' :: "dir".toList) (Handler.hid 0), false⟩
            ('/' :: "dir".toList) =
          (⟨301, some (('/' :: "dir".toList) ++ ['/']), ""⟩,
            ⟨'/' :: "dir".toList, [], []⟩)) :=
  ⟨by decide, claim_C3.1 "dir".toList (Handler.hid 0) (by decide)⟩

/-- The trie obtained by registering the catch-all pattern
`/api/:seg/*catchall`; `claim_C4` checks it against `registerAll`. -/
def catchTree : node :=
  node.mk [] none
    [node.mk "/api/".toList none [] []
      (some (node.mk "seg".toList none
        [node.mk "/".toList none [] [] none
          (some (node.mk "catchall".toList
            (some ⟨Handler.hid 0, "/api/:seg/*catchall".toList⟩) [] [] none none
            NodeType.catchall))
          NodeType.static]
        ['/'] none none NodeType.wildcard))
      none NodeType.static]
    ['/'] none none NodeType.static

/-- The trie obtained by registering
`/resource/:resourceID/subresource/:subID`; `claim_C4` checks it against
`registerAll`. -/
def resourceTree : node :=
  node.mk [] none
    [node.mk "/resource/".toList none [] []
      (some (node.mk "resourceID".toList none
        [node.mk "/subresource/".toList none [] []
          (some (node.mk "subID".toList
            (some ⟨Handler.hid 0, "/resource/:resourceID/subresource/:subID".toList⟩)
            [] [] none none NodeType.wildcard))
          none NodeType.static]
        ['/'] none none NodeType.wildcard))
      none NodeType.static]
    ['/'] none none NodeType.static

theorem catchTree_build :
    registerAll New ["/api/:seg/*catchall".toList] = Except.ok ⟨catchTree, false⟩ := by
  simp [registerAll, New, Mux.Handle, node.Insert, node.insert, insertChildren, applyCont,
    commonPrefixLength, emptyNode, node.Key, node.Value, node.withValue, node.withKey,
    Except.map, Except.bind, catchTree]

theorem resourceTree_build :
    registerAll New ["/resource/:resourceID/subresource/:subID".toList] =
      Except.ok ⟨resourceTree, false⟩ := by
  simp [registerAll, New, Mux.Handle, node.Insert, node.insert, insertChildren, applyCont,
    commonPrefixLength, emptyNode, node.Key, node.Value, node.withValue, node.withKey,
    Except.map, Except.bind, resourceTree]

theorem resourceTree_params :
    node.Lookup resourceTree "/resource/my_resource/subresource/my_sub".toList [] false =
      (some ⟨Handler.hid 0, "/resource/:resourceID/subresource/:subID".toList⟩,
        [⟨"resourceID".toList, "my_resource".toList⟩, ⟨"subID".toList, "my_sub".toList⟩]) :=
  lookupEval_sound 100 _ _ _ _ _ _ _ (by decide)

/-- The first slash in `s ++ '/' :: rest` sits at offset `s.length` when `s`
itself is slash-free (general over the scan's running index). -/
theorem findIdx_slash_aux (rest : Str) : ∀ (s : Str) (i : Nat), '/' ∉ s →
    (s ++ '/' :: rest).findIdx? (fun c => c = '/') i = some (i + s.length) := by
  intro s
  induction s with
  | nil =>
    intro i _
    rw [List.nil_append, List.findIdx?_cons]
    simp
  | cons c cs ih =>
    intro i hs
    have hc : ¬c = '/' := fun hh => hs (hh ▸ List.mem_cons_self c cs)
    have hcs : '/' ∉ cs := fun hh => hs (List.mem_cons_of_mem c hh)
    rw [List.cons_append, List.findIdx?_cons]
    simp only [hc, decide_eq_true_eq, decide_False, Bool.false_eq_true, if_false]
    rw [ih (i + 1) hcs]
    simp only [List.length_cons]
    congr 1
    omega

/-- The first slash in `s ++ '/' :: rest` sits at index `s.length` when `s`
is slash-free. -/
theorem findIdx_slash (s rest : Str) (hs : '/' ∉ s) :
    (s ++ '/' :: rest).findIdx? (fun c => c = '/') = some s.length := by
  have := findIdx_slash_aux rest s 0 hs
  simpa using this

theorem catchTree_general (s0 : Char) (s' : Str) (r0 : Char) (rest' : Str)
    (hs : '/' ∉ (s0 :: s')) :
    node.Lookup catchTree ("/api/".toList ++ ((s0 :: s') ++ '/' :: (r0 :: rest'))) [] false =
      (some ⟨Handler.hid 0, "/api/:seg/*catchall".toList⟩,
        [⟨"seg".toList, s0 :: s'⟩, ⟨"catchall".toList, r0 :: rest'⟩]) := by
  have hfind := findIdx_slash (s0 :: s') (r0 :: rest') hs
  simp only [List.cons_append] at hfind ⊢
  simp [node.Lookup, node.lookupWalk, node.lookupTail, node.lookupChildren, catchTree,
    node.IsSubdirNode, node.Key, node.Value, orFallback, hfind]

theorem catchTree_concrete :
    node.Lookup catchTree "/api/test/catch/all".toList [] false =
      (some ⟨Handler.hid 0, "/api/:seg/*catchall".toList⟩,
        [⟨"seg".toList, "test".toList⟩, ⟨"catchall".toList, "catch/all".toList⟩]) :=
  lookupEval_sound 100 _ _ _ _ _ _ _ (by decide)

/-- C4: parameter capture.  The parameters appended during routing are
exactly the wildcard bindings in pattern order: with
`/resource/:resourceID/subresource/:subID` registered, the request
`/resource/my_resource/subresource/my_sub` yields the two bindings in that
order; with `/api/:seg/*catchall` registered, any request
`/api/<seg>/<remainder>` (slash-free non-empty `<seg>`, non-empty
`<remainder>`) yields `seg` bound to the segment and `catchall` bound to the
entire unconsumed remainder, embedded slashes included; the request
`/api/test/catch/all` yields `{seg: "test", catchall: "catch/all"}`. -/
theorem claim_C4 :
    registerAll New ["/api/:seg/*catchall".toList] = Except.ok ⟨catchTree, false⟩ ∧
      (∀ (s0 : Char) (s' : Str) (r0 : Char) (rest' : Str), '/' ∉ (s0 :: s') →
        node.Lookup catchTree
            ("/api/".toList ++ ((s0 :: s') ++ '/' :: (r0 :: rest'))) [] false =
          (some ⟨Handler.hid 0, "/api/:seg/*catchall".toList⟩,
            [⟨"seg".toList, s0 :: s'⟩, ⟨"catchall".toList, r0 :: rest'⟩])) ∧
      node.Lookup catchTree "/api/test/catch/all".toList [] false =
        (some ⟨Handler.hid 0, "/api/:seg/*catchall".toList⟩,
          [⟨"seg".toList, "test".toList⟩, ⟨"catchall".toList, "catch/all".toList⟩]) ∧
      registerAll New ["/resource/:resourceID/subresource/:subID".toList] =
        Except.ok ⟨resourceTree, false⟩ ∧
      node.Lookup resourceTree "/resource/my_resource/subresource/my_sub".toList [] false =
        (some ⟨Handler.hid 0, "/resource/:resourceID/subresource/:subID".toList⟩,
          [⟨"resourceID".toList, "my_resource".toList⟩,
            ⟨"subID".toList, "my_sub".toList⟩]) :=
  ⟨catchTree_build, catchTree_general, catchTree_concrete, resourceTree_build,
    resourceTree_params⟩

/-- Witness for the universally quantified part of `claim_C4`, at segment
`"test"` and remainder `"catch/all"`. -/
theorem claim_C4_witness :
    ('/' ∉ ('t' :: "est".toList)) ∧
      node.Lookup catchTree
          ("/api/".toList ++ (('t' :: "est".toList) ++ '/' :: ('c' :: "atch/all".toList)))
          [] false =
        (some ⟨Handler.hid 0, "/api/:seg/*catchall".toList⟩,
          [⟨"seg".toList, 't' :: "est".toList⟩,
            ⟨"catchall".toList, 'c' :: "atch/all".toList⟩]) :=
  ⟨by decide, claim_C4.2.1 't' "est".toList 'c' "atch/all".toList (by decide)⟩

/-- The trie obtained by registering `/path` and `/path/:id`; `claim_C5`
checks it against `registerAll`. -/
def pathTree : node :=
  node.mk [] none
    [node.mk "/path".toList (some ⟨Handler.hid 0, "/path".toList⟩)
      [node.mk "/".toList none [] []
        (some (node.mk "id".toList (some ⟨Handler.hid 1, "/path/:id".toList⟩) [] [] none
          none NodeType.wildcard))
        none NodeType.static]
      ['/'] none none NodeType.static]
    ['/'] none none NodeType.static

theorem pathTree_build :
    registerAll New ["/path".toList, "/path/:id".toList] = Except.ok ⟨pathTree, false⟩ := by
  simp [registerAll, New, Mux.Handle, node.Insert, node.insert, insertChildren, applyCont,
    commonPrefixLength, emptyNode, node.Key, node.Value, node.withValue, node.withKey,
    Except.map, Except.bind, pathTree]

theorem pathTree_slash_mts :
    node.Lookup pathTree "/path/".toList [] true = (some ⟨Handler.hid 0, "/path".toList⟩, []) :=
  lookupEval_sound 100 _ _ _ _ _ _ _ (by decide)

theorem pathTree_value_slash_mts :
    node.Lookup pathTree "/path/value/".toList [] true =
      (some ⟨Handler.hid 1, "/path/:id".toList⟩, [⟨"id".toList, "value".toList⟩]) :=
  lookupEval_sound 100 _ _ _ _ _ _ _ (by decide)

theorem pathTree_slash_nomts :
    node.Lookup pathTree "/path/".toList [] false = (none, []) :=
  lookupEval_sound 100 _ _ _ _ _ _ _ (by decide)

theorem pathTree_value_slash_nomts :
    node.Lookup pathTree "/path/value/".toList [] false =
      (none, [⟨"id".toList, "value".toList⟩]) :=
  lookupEval_sound 100 _ _ _ _ _ _ _ (by decide)

/-- With match-trailing-slash enabled, a walk step that reaches a valued leaf
with remaining path exactly `"/"` records and returns that value. -/
theorem mts_records_value_as_fallback (K : Str) (v : value) (I : List Char) (t : NodeType)
    (params : List Param) (fb : Option value) :
    node.lookupTail (node.mk K (some v) [] I none none t) ['/'] params true fb =
      (some v, params) := by
  rw [node.lookupTail.eq_def]
  dsimp only
  rw [if_pos (by simp)]
  rw [show node.lookupChildren I [] '/' ['/'] params true none (some v) = none from by
    rw [node.lookupChildren.eq_def]; cases I <;> dsimp only]
  rfl

/-- C5: the match-trailing-slash option.  With `/path` and `/path/:id`
registered and the option enabled, `/path/` matches `/path` and
`/path/value/` matches `/path/:id` with `id = "value"`; with the option
disabled neither request matches.  The universally quantified conjunct shows
the mechanism: when the option is on and the remaining path is exactly `"/"`
at a valued node with nothing deeper to try, that value is recorded as the
fallback and returned. -/
theorem claim_C5 :
    registerAll New ["/path".toList, "/path/:id".toList] = Except.ok ⟨pathTree, false⟩ ∧
      node.Lookup pathTree "/path/".toList [] true =
        (some ⟨Handler.hid 0, "/path".toList⟩, []) ∧
      node.Lookup pathTree "/path/value/".toList [] true =
        (some ⟨Handler.hid 1, "/path/:id".toList⟩, [⟨"id".toList, "value".toList⟩]) ∧
      node.Lookup pathTree "/path/".toList [] false = (none, []) ∧
      node.Lookup pathTree "/path/value/".toList [] false =
        (none, [⟨"id".toList, "value".toList⟩]) ∧
      (∀ (K : Str) (v : value) (I : List Char) (t : NodeType) (params : List Param)
          (fb : Option value),
        node.lookupTail (node.mk K (some v) [] I none none t) ['/'] params true fb =
          (some v, params)) :=
  ⟨pathTree_build, pathTree_slash_mts, pathTree_value_slash_mts, pathTree_slash_nomts,
    pathTree_value_slash_nomts, mts_records_value_as_fallback⟩

/-- The trie obtained by registering `/api/:api`, `/api/:api/ctx/:ctx`,
`/api/root`, and `/api/:api/`; `claim_C10` checks it against `registerAll`. -/
def apiCtxTree : node :=
  node.mk [] none
    [node.mk "/api/".toList none
      [node.mk "root".toList (some ⟨Handler.hid 2, "/api/root".toList⟩) [] [] none none
        NodeType.static]
      ['r']
      (some (node.mk "api".toList (some ⟨Handler.hid 0, "/api/:api".toList⟩)
        [node.mk "/".toList (some ⟨Handler.hid 3, "/api/:api/".toList⟩)
          [node.mk "ctx/".toList none [] []
            (some (node.mk "ctx".toList
              (some ⟨Handler.hid 1, "/api/:api/ctx/:ctx".toList⟩) [] [] none none
              NodeType.wildcard))
            none NodeType.static]
          ['c'] none none NodeType.static]
        ['/'] none none NodeType.wildcard))
      none NodeType.static]
    ['/'] none none NodeType.static

theorem apiCtxTree_build :
    registerAll New ["/api/:api".toList, "/api/:api/ctx/:ctx".toList, "/api/root".toList,
        "/api/:api/".toList] =
      Except.ok ⟨apiCtxTree, false⟩ := by
  simp [registerAll, New, Mux.Handle, node.Insert, node.insert, insertChildren, applyCont,
    commonPrefixLength, emptyNode, node.Key, node.Value, node.withValue, node.withKey,
    Except.map, Except.bind, apiCtxTree]

theorem apiCtxTree_exact :
    node.Lookup apiCtxTree "/api/svc/ctx/mine".toList [] false =
      (some ⟨Handler.hid 1, "/api/:api/ctx/:ctx".toList⟩,
        [⟨"api".toList, "svc".toList⟩, ⟨"ctx".toList, "mine".toList⟩]) :=
  lookupEval_sound 100 _ _ _ _ _ _ _ (by decide)

theorem apiCtxTree_fallback_keeps_params :
    node.Lookup apiCtxTree "/api/svc/ctx/mine/".toList [] false =
      (some ⟨Handler.hid 3, "/api/:api/".toList⟩,
        [⟨"api".toList, "svc".toList⟩, ⟨"ctx".toList, "mine".toList⟩]) :=
  lookupEval_sound 100 _ _ _ _ _ _ _ (by decide)

/-- C10 (implicit): parameters bound during an abandoned deeper walk stay in
the parameter list.  With `/api/:api`, `/api/:api/ctx/:ctx`, `/api/root` and
`/api/:api/` registered, `/api/svc/ctx/mine` matches the deep pattern with
both bindings, and `/api/svc/ctx/mine/` falls back to the subtree pattern
`/api/:api/` — yet its parameter list still holds both `api = "svc"` and
`ctx = "mine"`, the latter bound on the abandoned deeper walk. -/
theorem claim_C10 :
    registerAll New ["/api/:api".toList, "/api/:api/ctx/:ctx".toList, "/api/root".toList,
        "/api/:api/".toList] =
      Except.ok ⟨apiCtxTree, false⟩ ∧
      node.Lookup apiCtxTree "/api/svc/ctx/mine".toList [] false =
        (some ⟨Handler.hid 1, "/api/:api/ctx/:ctx".toList⟩,
          [⟨"api".toList, "svc".toList⟩, ⟨"ctx".toList, "mine".toList⟩]) ∧
      node.Lookup apiCtxTree "/api/svc/ctx/mine/".toList [] false =
        (some ⟨Handler.hid 3, "/api/:api/".toList⟩,
          [⟨"api".toList, "svc".toList⟩, ⟨"ctx".toList, "mine".toList⟩]) :=
  ⟨apiCtxTree_build, apiCtxTree_exact, apiCtxTree_fallback_keeps_params⟩

/-- The trie obtained by registering `/api/:id` and then `/api/:id/other`:
the second insertion re-declares the wildcard slot with the identical name
and reuses the existing child without error. -/
def idOtherTree : node :=
  node.mk [] none
    [node.mk "/api/".toList none [] []
      (some (node.mk "id".toList (some ⟨Handler.hid 0, "/api/:id".toList⟩)
        [node.mk "/other".toList (some ⟨Handler.hid 1, "/api/:id/other".toList⟩) [] []
          none none NodeType.static]
        ['/'] none none NodeType.wildcard))
      none NodeType.static]
    ['/'] none none NodeType.static

/-- Declaring a `:name` segment at a node whose wildcard slot already holds a
child with a different name fails with the mismatched-wildcards error. -/
theorem wildcard_mismatch_errors (K : Str) (V : Option value) (C : List node)
    (I : List Char) (Ca : Option node) (t : NodeType) (w : node)
    (name : Str) (v : Option value) (k : Cont) (h : w.Key ≠ name) :
    node.insert (node.mk K V C I (some w) Ca t) (':' :: name) v k =
      Except.error (Err.mismatchedWildcards w.Key (':' :: name)) := by
  cases v <;> cases Ca <;> simp [node.insert, h]

/-- Re-declaring the wildcard slot with the identical name and no value
reuses the existing child unchanged. -/
theorem wildcard_same_name_reuses (K : Str) (V : Option value) (C : List node)
    (I : List Char) (Ca : Option node) (t : NodeType) (w : node) :
    node.insert (node.mk K V C I (some w) Ca t) (':' :: w.Key) none Cont.done =
      Except.ok (node.mk K V C I (some w) Ca t) := by
  cases Ca <;> simp [node.insert, applyCont, Except.map]

/-- Installing a second value on an occupied wildcard slot fails with the
multiple-registrations error. -/
theorem wildcard_second_value_errors (K : Str) (V : Option value) (C : List node)
    (I : List Char) (Ca : Option node) (t : NodeType) (wk : Str) (v0 : value)
    (wc : List node) (wi : List Char) (ww wca : Option node) (wt : NodeType)
    (v : value) (k : Cont) :
    node.insert (node.mk K V C I (some (node.mk wk (some v0) wc wi ww wca wt)) Ca t)
        (':' :: wk) (some v) k =
      Except.error Err.multipleRegistrations := by
  cases Ca <;> simp [node.insert, node.Key, node.Value]

/-- Declaring a `*name` segment at a node whose catch-all slot already holds
a child with a different name fails with the mismatched-wildcards error. -/
theorem catchall_mismatch_errors (K : Str) (V : Option value) (C : List node)
    (I : List Char) (W : Option node) (t : NodeType) (c : node)
    (name : Str) (v : Option value) (k : Cont) (h : c.Key ≠ name) :
    node.insert (node.mk K V C I W (some c) t) ('*' :: name) v k =
      Except.error (Err.mismatchedWildcards c.Key ('*' :: name)) := by
  cases v <;> cases W <;> simp [node.insert, h]

/-- Re-declaring an occupied catch-all slot, even with the identical name,
fails with the multiple-registrations error. -/
theorem catchall_redeclaration_errors (K : Str) (V : Option value) (C : List node)
    (I : List Char) (W : Option node) (t : NodeType) (c : node)
    (v : Option value) (k : Cont) :
    node.insert (node.mk K V C I W (some c) t) ('*' :: c.Key) v k =
      Except.error Err.multipleRegistrations := by
  cases v <;> cases W <;> simp [node.insert]

/-- Registering `/api/:id` then `/api/:id/other` succeeds: the identical
wildcard name is reused. -/
theorem idOther_ok :
    registerAll New ["/api/:id".toList, "/api/:id/other".toList] =
      Except.ok ⟨idOtherTree, false⟩ := by
  simp [registerAll, New, Mux.Handle, node.Insert, node.insert, insertChildren, applyCont,
    commonPrefixLength, emptyNode, node.Key, node.Value, node.withValue, node.withKey,
    Except.map, Except.bind, idOtherTree]

/-- Registering `/api/:id` then `/api/:resource/value` fails: the wildcard
names differ. -/
theorem idResource_mismatch :
    registerAll New ["/api/:id".toList, "/api/:resource/value".toList] =
      Except.error (Err.mismatchedWildcards "id".toList ":resource".toList) := by
  simp [registerAll, New, Mux.Handle, node.Insert, node.insert, insertChildren, applyCont,
    commonPrefixLength, emptyNode, node.Key, node.Value, node.withValue, node.withKey,
    Except.map, Except.bind]

/-- Registering `/api/:id` twice fails with multiple registrations. -/
theorem idTwice_multiple :
    registerAll New ["/api/:id".toList, "/api/:id".toList] =
      Except.error Err.multipleRegistrations := by
  simp [registerAll, New, Mux.Handle, node.Insert, node.insert, insertChildren, applyCont,
    commonPrefixLength, emptyNode, node.Key, node.Value, node.withValue, node.withKey,
    Except.map, Except.bind]

/-- Registering `/*catch` then `/*all` fails: the catch-all names differ. -/
theorem catchMismatch :
    registerAll New ["/*catch".toList, "/*all".toList] =
      Except.error (Err.mismatchedWildcards "catch".toList "*all".toList) := by
  simp [registerAll, New, Mux.Handle, node.Insert, node.insert, insertChildren, applyCont,
    commonPrefixLength, emptyNode, node.Key, node.Value, node.withValue, node.withKey,
    Except.map, Except.bind]

/-- Registering `/*catch` twice fails with multiple registrations. -/
theorem catchTwice_multiple :
    registerAll New ["/*catch".toList, "/*catch".toList] =
      Except.error Err.multipleRegistrations := by
  simp [registerAll, New, Mux.Handle, node.Insert, node.insert, insertChildren, applyCont,
    commonPrefixLength, emptyNode, node.Key, node.Value, node.withValue, node.withKey,
    Except.map, Except.bind]

/-- C7: wildcard and catch-all slot uniqueness on insertion.  Each node holds
at most one wildcard and one catch-all child (they are single optional slots);
re-declaring an occupied slot with a different name fails with the
mismatched-wildcards error, re-declaring it with the identical name reuses the
existing child without error, and installing a value twice on the same slot
fails with the multiple-registrations error.  The registration scenarios of
`TestRegistration` behave accordingly. -/
theorem claim_C7 :
    (∀ (K : Str) (V : Option value) (C : List node) (I : List Char)
        (Ca : Option node) (t : NodeType) (w : node) (name : Str)
        (v : Option value) (k : Cont), w.Key ≠ name →
      node.insert (node.mk K V C I (some w) Ca t) (':' :: name) v k =
        Except.error (Err.mismatchedWildcards w.Key (':' :: name))) ∧
    (∀ (K : Str) (V : Option value) (C : List node) (I : List Char)
        (Ca : Option node) (t : NodeType) (w : node),
      node.insert (node.mk K V C I (some w) Ca t) (':' :: w.Key) none Cont.done =
        Except.ok (node.mk K V C I (some w) Ca t)) ∧
    (∀ (K : Str) (V : Option value) (C : List node) (I : List Char)
        (Ca : Option node) (t : NodeType) (wk : Str) (v0 : value) (wc : List node)
        (wi : List Char) (ww wca : Option node) (wt : NodeType) (v : value) (k : Cont),
      node.insert (node.mk K V C I (some (node.mk wk (some v0) wc wi ww wca wt)) Ca t)
          (':' :: wk) (some v) k = Except.error Err.multipleRegistrations) ∧
    (∀ (K : Str) (V : Option value) (C : List node) (I : List Char)
        (W : Option node) (t : NodeType) (c : node) (name : Str)
        (v : Option value) (k : Cont), c.Key ≠ name →
      node.insert (node.mk K V C I W (some c) t) ('*' :: name) v k =
        Except.error (Err.mismatchedWildcards c.Key ('*' :: name))) ∧
    (∀ (K : Str) (V : Option value) (C : List node) (I : List Char)
        (W : Option node) (t : NodeType) (c : node) (v : Option value) (k : Cont),
      node.insert (node.mk K V C I W (some c) t) ('*' :: c.Key) v k =
        Except.error Err.multipleRegistrations) ∧
    registerAll New ["/api/:id".toList, "/api/:id/other".toList] =
      Except.ok ⟨idOtherTree, false⟩ ∧
    registerAll New ["/api/:id".toList, "/api/:resource/value".toList] =
      Except.error (Err.mismatchedWildcards "id".toList ":resource".toList) ∧
    registerAll New ["/api/:id".toList, "/api/:id".toList] =
      Except.error Err.multipleRegistrations ∧
    registerAll New ["/*catch".toList, "/*all".toList] =
      Except.error (Err.mismatchedWildcards "catch".toList "*all".toList) ∧
    registerAll New ["/*catch".toList, "/*catch".toList] =
      Except.error Err.multipleRegistrations :=
  ⟨wildcard_mismatch_errors, wildcard_same_name_reuses, wildcard_second_value_errors,
    catchall_mismatch_errors, catchall_redeclaration_errors, idOther_ok,
    idResource_mismatch, idTwice_multiple, catchMismatch, catchTwice_multiple⟩

/-- C7 witness: the wildcard-mismatch conjunct of `claim_C7` evaluated at a
concrete node whose wildcard slot holds `id` while the new declaration names
`resource`. -/
theorem claim_C7_witness :
    node.insert
        (node.mk [] none [] []
          (some (node.mk "id".toList none [] [] none none NodeType.wildcard))
          none NodeType.static)
        (':' :: "resource".toList) none Cont.done =
      Except.error
        (Err.mismatchedWildcards
          (node.Key (node.mk "id".toList none [] [] none none NodeType.wildcard))
          (':' :: "resource".toList)) :=
  claim_C7.1 [] none [] [] none NodeType.static
    (node.mk "id".toList none [] [] none none NodeType.wildcard)
    "resource".toList none Cont.done (by decide)

/-- The structural invariant of C9, at every node of the trie: the `Indices`
array lists exactly the first bytes of the static children's keys in order,
those keys are non-empty, the index bytes are pairwise distinct (hence no two
sibling keys share a non-empty common prefix), and the same holds recursively
below every static child, wildcard child and catch-all child. -/
inductive treeInv : node → Prop where
  | mk (K : Str) (V : Option value) (Children : List node) (Indices : List Char)
      (W Ca : Option node) (t : NodeType)
      (hidx : Indices = Children.map (fun c => c.Key.headD ' '))
      (hne : ∀ c ∈ Children, c.Key ≠ [])
      (hnd : Indices.Nodup)
      (hch : ∀ c ∈ Children, treeInv c)
      (hw : ∀ w, W = some w → treeInv w)
      (hca : ∀ c, Ca = some c → treeInv c) :
      treeInv (node.mk K V Children Indices W Ca t)

theorem cpl_le_left : ∀ (a b : Str), commonPrefixLength a b ≤ a.length
  | [], _ => by simp [commonPrefixLength]
  | _ :: _, [] => by simp [commonPrefixLength]
  | a :: as, b :: bs => by
    simp only [commonPrefixLength, List.length_cons]
    split
    · have := cpl_le_left as bs
      omega
    · omega

theorem cpl_le_right : ∀ (a b : Str), commonPrefixLength a b ≤ b.length
  | [], _ => by simp [commonPrefixLength]
  | _ :: _, [] => by simp [commonPrefixLength]
  | a :: as, b :: bs => by
    simp only [commonPrefixLength, List.length_cons]
    split
    · have := cpl_le_right as bs
      omega
    · omega

theorem cpl_nil_right : ∀ (a : Str), commonPrefixLength a [] = 0
  | [] => rfl
  | _ :: _ => rfl

theorem cpl_head_eq (a b : Str) (d : Char) (h : commonPrefixLength a b ≠ 0) :
    a.headD d = b.headD d := by
  match a, b with
  | [], _ => simp [commonPrefixLength] at h
  | _ :: _, [] => simp [commonPrefixLength] at h
  | x :: as, y :: bs =>
    simp only [commonPrefixLength] at h
    by_cases hxy : x = y
    · simp [hxy]
    · simp [hxy] at h

theorem cpl_drop_head_ne : ∀ (a b : Str) (d : Char),
    commonPrefixLength a b < a.length → commonPrefixLength a b < b.length →
    (a.drop (commonPrefixLength a b)).headD d ≠ (b.drop (commonPrefixLength a b)).headD d
  | [], _, d => by simp
  | _ :: _, [], d => by simp
  | x :: as, y :: bs, d => by
    intro h1 h2
    by_cases hxy : x = y
    · subst hxy
      simp only [commonPrefixLength, List.length_cons, eq_self_iff_true, if_true] at h1 h2 ⊢
      have h1' : commonPrefixLength as bs < as.length := by omega
      have h2' : commonPrefixLength as bs < bs.length := by omega
      have := cpl_drop_head_ne as bs d h1' h2'
      simpa [Nat.add_comm 1 (commonPrefixLength as bs)] using this
    · simp [commonPrefixLength, hxy]

theorem headD_take_ne_zero (a : Str) (n : Nat) (d : Char) (h : n ≠ 0) :
    (a.take n).headD d = a.headD d := by
  match a, n with
  | [], _ => simp
  | _ :: _, 0 => omega
  | x :: as, m + 1 => simp [List.take]

theorem treeInv_leaf (K : Str) (V : Option value) (t : NodeType) :
    treeInv (node.mk K V [] [] none none t) := by
  refine treeInv.mk K V [] [] none none t (by simp) (by simp) (by simp) (by simp) ?_ ?_ <;>
    intro x hx <;> cases hx

theorem treeInv_withValue (n : node) (v : Option value) (h : treeInv n) :
    treeInv (n.withValue v) := by
  cases h with
  | mk K V C I W Ca t hidx hne hnd hch hw hca =>
    exact treeInv.mk K v C I W Ca t hidx hne hnd hch hw hca

theorem treeInv_withKey (n : node) (s : Str) (h : treeInv n) :
    treeInv (n.withKey s) := by
  cases h with
  | mk K V C I W Ca t hidx hne hnd hch hw hca =>
    exact treeInv.mk s V C I W Ca t hidx hne hnd hch hw hca

theorem cpl_nil_left (b : Str) : commonPrefixLength [] b = 0 := by
  cases b <;> rfl

theorem except_map_ok {α β : Type} (f : α → β) (e : Except Err α) (b : β)
    (h : e.map f = Except.ok b) : ∃ a, e = Except.ok a ∧ b = f a := by
  cases e with
  | error e => simp [Except.map] at h
  | ok a => simp [Except.map] at h; exact ⟨a, rfl, h.symm⟩

theorem treeInv_fields {K : Str} {V : Option value} {C : List node}
    {I : List Char} {W Ca : Option node} {t : NodeType}
    (h : treeInv (node.mk K V C I W Ca t)) :
    I = C.map (fun c => c.Key.headD ' ') ∧ (∀ c ∈ C, c.Key ≠ []) ∧ I.Nodup ∧
      (∀ c ∈ C, treeInv c) ∧ (∀ w, W = some w → treeInv w) ∧
      (∀ c, Ca = some c → treeInv c) := by
  cases h with
  | mk K V C I W Ca t hidx hne hnd hch hw hca => exact ⟨hidx, hne, hnd, hch, hw, hca⟩

theorem insert_nil (n : node) (v : Option value) (k : Cont) :
    node.insert n [] v k = Except.error Err.emptyKey := by
  cases n; simp [node.insert]

theorem insert_wc_occupied (K : Str) (V : Option value) (C : List node)
    (I : List Char) (Ca : Option node) (t : NodeType) (w : node) (key0 : Str)
    (v0 v : value) (hkeq : w.Key = key0) (hval : w.Value = some v0) (k : Cont) :
    node.insert (node.mk K V C I (some w) Ca t) (':' :: key0) (some v) k =
      Except.error Err.multipleRegistrations := by
  cases Ca <;> simp [node.insert, ← hkeq, hval]

theorem insert_wc_withvalue (K : Str) (V : Option value) (C : List node)
    (I : List Char) (Ca : Option node) (t : NodeType) (w : node) (key0 : Str)
    (val : value) (hkeq : w.Key = key0) (hval : w.Value = none) (k : Cont) :
    node.insert (node.mk K V C I (some w) Ca t) (':' :: key0) (some val) k =
      (applyCont k (w.withValue (some val))).map
        (fun w2 => node.mk K V C I (some w2) Ca t) := by
  cases Ca <;> simp [node.insert, ← hkeq, hval]

theorem insert_wc_novalue (K : Str) (V : Option value) (C : List node)
    (I : List Char) (Ca : Option node) (t : NodeType) (w : node) (key0 : Str)
    (hkeq : w.Key = key0) (k : Cont) :
    node.insert (node.mk K V C I (some w) Ca t) (':' :: key0) none k =
      (applyCont k w).map (fun w2 => node.mk K V C I (some w2) Ca t) := by
  cases Ca <;> simp [node.insert, ← hkeq]

theorem insert_wc_fresh (K : Str) (V : Option value) (C : List node)
    (I : List Char) (Ca : Option node) (t : NodeType) (key0 : Str)
    (v : Option value) (k : Cont) :
    node.insert (node.mk K V C I none Ca t) (':' :: key0) v k =
      (applyCont k (node.mk key0 v [] [] none none NodeType.wildcard)).map
        (fun w2 => node.mk K V C I (some w2) Ca t) := by
  cases v <;> cases Ca <;> simp [node.insert]

theorem insert_ca_fresh (K : Str) (V : Option value) (C : List node)
    (I : List Char) (W : Option node) (t : NodeType) (key0 : Str)
    (v : Option value) (k : Cont) :
    node.insert (node.mk K V C I W none t) ('*' :: key0) v k =
      (applyCont k (node.mk key0 v [] [] none none NodeType.catchall)).map
        (fun c2 => node.mk K V C I W (some c2) t) := by
  cases v <;> cases W <;> simp [node.insert]

theorem insert_static_err (K : Str) (V : Option value) (C : List node)
    (I : List Char) (W Ca : Option node) (t : NodeType) (b0 : Char) (key0 : Str)
    (v : Option value) (k : Cont) (e : Err) (hb1 : ¬b0 = ':') (hb2 : ¬b0 = '*')
    (hic : insertChildren C (b0 :: key0) v k = Except.error e) :
    node.insert (node.mk K V C I W Ca t) (b0 :: key0) v k = Except.error e := by
  cases v <;> cases W <;> cases Ca <;> simp [node.insert, hb1, hb2, hic]

theorem insert_static_some (K : Str) (V : Option value) (C : List node)
    (I : List Char) (W Ca : Option node) (t : NodeType) (b0 : Char) (key0 : Str)
    (v : Option value) (k : Cont) (cs2 : List node) (hb1 : ¬b0 = ':')
    (hb2 : ¬b0 = '*')
    (hic : insertChildren C (b0 :: key0) v k = Except.ok (some cs2)) :
    node.insert (node.mk K V C I W Ca t) (b0 :: key0) v k =
      Except.ok (node.mk K V cs2 I W Ca t) := by
  cases v <;> cases W <;> cases Ca <;> simp [node.insert, hb1, hb2, hic]

theorem insert_static_none (K : Str) (V : Option value) (C : List node)
    (I : List Char) (W Ca : Option node) (t : NodeType) (b0 : Char) (key0 : Str)
    (v : Option value) (k : Cont) (hb1 : ¬b0 = ':') (hb2 : ¬b0 = '*')
    (hic : insertChildren C (b0 :: key0) v k = Except.ok none) :
    node.insert (node.mk K V C I W Ca t) (b0 :: key0) v k =
      (applyCont k (node.mk (b0 :: key0) v [] [] none none NodeType.static)).map
        (fun t2 => node.mk K V (C ++ [t2]) (I ++ [b0]) W Ca t) := by
  cases v <;> cases W <;> cases Ca <;> simp [node.insert, hb1, hb2, hic]

theorem ichildren_nil (key : Str) (v : Option value) (k : Cont) :
    insertChildren [] key v k = Except.ok none := by
  simp [insertChildren]

theorem ichildren_exact_occupied (c : node) (cs : List node) (v0 v : value)
    (k : Cont) (hval : c.Value = some v0) :
    insertChildren (c :: cs) c.Key (some v) k =
      Except.error Err.multipleRegistrations := by
  simp [insertChildren, hval]

theorem ichildren_exact_withvalue (c : node) (cs : List node) (v : value)
    (k : Cont) (hval : c.Value = none) :
    insertChildren (c :: cs) c.Key (some v) k =
      (applyCont k (c.withValue (some v))).map (fun c2 => some (c2 :: cs)) := by
  simp [insertChildren, hval]

theorem ichildren_exact_novalue (c : node) (cs : List node) (k : Cont) :
    insertChildren (c :: cs) c.Key none k =
      (applyCont k c).map (fun c2 => some (c2 :: cs)) := by
  simp [insertChildren]

theorem ichildren_skip (c : node) (cs : List node) (key : Str) (v : Option value)
    (k : Cont) (hne : ¬key = c.Key) (hcp : commonPrefixLength c.Key key = 0) :
    insertChildren (c :: cs) key v k =
      (insertChildren cs key v k).map
        (fun r => match r with | some cs2 => some (c :: cs2) | none => none) := by
  cases v <;> simp [insertChildren, hne, hcp]

theorem ichildren_into (c : node) (cs : List node) (key : Str) (v : Option value)
    (k : Cont) (hne : ¬key = c.Key)
    (hcp : ¬commonPrefixLength c.Key key = 0)
    (hcl : commonPrefixLength c.Key key = c.Key.length) :
    insertChildren (c :: cs) key v k =
      (node.insert c (key.drop (commonPrefixLength c.Key key)) v k).map
        (fun c2 => some (c2 :: cs)) := by
  have hA : ¬c.Key = [] := fun h => hcp (by rw [h, cpl_nil_left])
  cases v <;> simp [insertChildren, hne, hcp, hcl, hA]

theorem ichildren_splitAt (c : node) (cs : List node) (key : Str)
    (v : Option value) (k : Cont) (hne : ¬key = c.Key)
    (hcp : ¬commonPrefixLength c.Key key = 0)
    (hcl : ¬commonPrefixLength c.Key key = c.Key.length)
    (hkl : commonPrefixLength c.Key key = key.length) :
    insertChildren (c :: cs) key v k =
      (applyCont k
          (node.mk key v [c.withKey (c.Key.drop (commonPrefixLength c.Key key))]
            [(c.Key.drop (commonPrefixLength c.Key key)).headD ' '] none none
            NodeType.static)).map (fun b2 => some (b2 :: cs)) := by
  have hB : ¬key = [] := fun h => hcp (by rw [h, cpl_nil_right])
  have hlen : ¬key.length = c.Key.length := fun h => hcl (hkl.trans h)
  cases v <;> simp [insertChildren, hne, hcp, hcl, hkl, hB, hlen]

theorem ichildren_splitBoth (c : node) (cs : List node) (key : Str)
    (v : Option value) (k : Cont) (hne : ¬key = c.Key)
    (hcp : ¬commonPrefixLength c.Key key = 0)
    (hcl : ¬commonPrefixLength c.Key key = c.Key.length)
    (hkl : ¬commonPrefixLength c.Key key = key.length) :
    insertChildren (c :: cs) key v k =
      (applyCont k
          (node.mk (key.drop (commonPrefixLength c.Key key)) v [] [] none none
            NodeType.static)).map
        (fun target =>
          some
            (node.mk (key.take (commonPrefixLength c.Key key)) none
                [c.withKey (c.Key.drop (commonPrefixLength c.Key key)), target]
                [(c.Key.drop (commonPrefixLength c.Key key)).headD ' ',
                  (key.drop (commonPrefixLength c.Key key)).headD ' '] none none
                NodeType.static ::
              cs)) := by
  have hA : ¬c.Key = [] := fun h => hcp (by rw [h, cpl_nil_left])
  have hB : ¬key = [] := fun h => hcp (by rw [h, cpl_nil_right])
  cases v <;> simp [insertChildren, hne, hcp, hcl, hkl, hA, hB]

theorem applyCont_done (t : node) : applyCont Cont.done t = Except.ok t := by
  simp [applyCont]

theorem applyCont_dynTerm (t : node) (post : Str) (v : value) :
    applyCont (Cont.dynTerm post v) t = node.insert t post (some v) Cont.done := by
  simp [applyCont]

theorem applyCont_dynThen (t : node) (seg rest : Str) (v : value) :
    applyCont (Cont.dynThen seg rest v) t =
      node.insert t seg none (Cont.goRest rest v) := by
  simp [applyCont]

theorem applyCont_goRest (t : node) (rest : Str) (v : value) :
    applyCont (Cont.goRest rest v) t = node.Insert t rest v := by
  simp [applyCont]

theorem Insert_nil (n : node) (v : value) :
    node.Insert n [] v = node.insert n [] (some v) Cont.done := by
  simp [node.Insert]

theorem Insert_noDyn (n : node) (b0 : Char) (key0 : Str) (v : value)
    (hf : (b0 :: key0).findIdx? (fun c => c = ':' || c = '*') = none) :
    node.Insert n (b0 :: key0) v =
      node.insert n (b0 :: key0) (some v) Cont.done := by
  simp [node.Insert, hf]

theorem Insert_dynZero (n : node) (b0 : Char) (key0 : Str) (v : value)
    (hf : (b0 :: key0).findIdx? (fun c => c = ':' || c = '*') = some 0) :
    node.Insert n (b0 :: key0) v = Except.error Err.emptyKey := by
  simp [node.Insert, hf]

theorem Insert_dynTerm (n : node) (b0 : Char) (key0 : Str) (v : value) (idx : Nat)
    (hf : (b0 :: key0).findIdx? (fun c => c = ':' || c = '*') = some idx)
    (h0 : ¬idx = 0)
    (hf2 : ((b0 :: key0).drop idx).findIdx? (fun c => c = '/') = none) :
    node.Insert n (b0 :: key0) v =
      node.insert n ((b0 :: key0).take idx) none
        (Cont.dynTerm ((b0 :: key0).drop idx) v) := by
  simp [node.Insert, hf, h0, hf2]

theorem Insert_catchSeg (n : node) (b0 : Char) (key0 : Str) (v : value)
    (idx sIdx : Nat)
    (hf : (b0 :: key0).findIdx? (fun c => c = ':' || c = '*') = some idx)
    (h0 : ¬idx = 0)
    (hf4 : ((b0 :: key0).drop idx).findIdx? (fun c => c = '/') = some sIdx)
    (hstar : ((b0 :: key0).drop idx).headD ' ' = '*') :
    node.Insert n (b0 :: key0) v =
      Except.error (Err.segmentsAfterCatchall (((b0 :: key0).drop idx).take sIdx)) := by
  simp at hstar
  simp [node.Insert, hf, h0, hf4, hstar]

theorem Insert_dynThen (n : node) (b0 : Char) (key0 : Str) (v : value)
    (idx sIdx : Nat)
    (hf : (b0 :: key0).findIdx? (fun c => c = ':' || c = '*') = some idx)
    (h0 : ¬idx = 0)
    (hf4 : ((b0 :: key0).drop idx).findIdx? (fun c => c = '/') = some sIdx)
    (hstar : ¬((b0 :: key0).drop idx).headD ' ' = '*') :
    node.Insert n (b0 :: key0) v =
      node.insert n ((b0 :: key0).take idx) none
        (Cont.dynThen (((b0 :: key0).drop idx).take sIdx)
          (((b0 :: key0).drop idx).drop sIdx) v) := by
  simp at hstar
  simp [node.Insert, hf, h0, hf4, hstar]

theorem key_mk (K : Str) (V : Option value) (C : List node) (I : List Char)
    (W Ca : Option node) (t : NodeType) : (node.mk K V C I W Ca t).Key = K := rfl

theorem key_withValue (n : node) (v : Option value) : (n.withValue v).Key = n.Key := by
  cases n; rfl

theorem key_withKey (n : node) (s : Str) : (n.withKey s).Key = s := by
  cases n; rfl

theorem insert_preserves :
    ∀ (n : node) (key : Str) (v : Option value) (k : Cont),
      treeInv n → ∀ n', node.insert n key v k = Except.ok n' →
        treeInv n' ∧ n'.Key = n.Key := by
  refine node.insert.induct
    (fun n key v => treeInv n → ∀ n', node.Insert n key v = Except.ok n' →
      treeInv n' ∧ n'.Key = n.Key)
    (fun n key v k => treeInv n → ∀ n', node.insert n key v k = Except.ok n' →
      treeInv n' ∧ n'.Key = n.Key)
    (fun children key v k =>
      (∀ c ∈ children, treeInv c) → (∀ c ∈ children, c.Key ≠ []) →
      (insertChildren children key v k = Except.ok none →
        ∀ c ∈ children, commonPrefixLength c.Key key = 0) ∧
      (∀ cs2, insertChildren children key v k = Except.ok (some cs2) →
        (∀ c ∈ cs2, treeInv c ∧ c.Key ≠ []) ∧
        cs2.map (fun c => c.Key.headD ' ') = children.map (fun c => c.Key.headD ' ')))
    (fun k t => treeInv t → ∀ t', applyCont k t = Except.ok t' →
      treeInv t' ∧ t'.Key = t.Key)
    ?_ ?_ ?_ ?_ ?_ ?_ ?_ ?_ ?_ ?_ ?_ ?_ ?_ ?_ ?_ ?_ ?_ ?_ ?_ ?_ ?_ ?_ ?_ ?_ ?_ ?_ ?_ ?_ ?_ ?_
  -- m1c1: empty pattern
  · intro n v ih hinv n' hok
    rw [Insert_nil] at hok
    exact ih hinv n' hok
  -- m1c2: no dynamic segment
  · intro n v b0 key0 hf ih hinv n' hok
    rw [Insert_noDyn n b0 key0 v hf] at hok
    exact ih hinv n' hok
  -- m1c3: dynamic segment at index 0
  · intro n v b0 key0 hf hinv n' hok
    rw [Insert_dynZero n b0 key0 v hf] at hok
    cases hok
  -- m1c4: terminal dynamic segment
  · intro n v b0 key0 idx hf h0 pre post hf2 ih hinv n' hok
    rw [Insert_dynTerm n b0 key0 v idx hf h0 hf2] at hok
    exact ih hinv n' hok
  -- m1c5: segments after a catchall
  · intro n v b0 key0 idx hf h0 post sIdx hf4 hstar hinv n' hok
    rw [Insert_catchSeg n b0 key0 v idx sIdx hf h0 hf4 hstar] at hok
    cases hok
  -- m1c6: dynamic segment with a tail
  · intro n v b0 key0 idx hf h0 pre post sIdx hf4 hstar ih hinv n' hok
    rw [Insert_dynThen n b0 key0 v idx sIdx hf h0 hf4 hstar] at hok
    exact ih hinv n' hok
  -- m2c1: empty key
  · intro v k K V C I W Ca t hinv n' hok
    rw [insert_nil] at hok
    cases hok
  -- m2c2: wildcard name mismatch
  · intro v k K V C I Ca t key0 w hne hinv n' hok
    rw [wildcard_mismatch_errors K V C I Ca t w key0 v k hne] at hok
    cases hok
  -- m2c3: wildcard slot already has a value
  · intro k K V C I Ca t key0 w hkey val val1 hval hinv n' hok
    rw [insert_wc_occupied K V C I Ca t w key0 val1 val (not_not.mp hkey) hval k] at hok
    cases hok
  -- m2c4: wildcard slot gets its value
  · intro k K V C I Ca t key0 w hkey val hval ih hinv n' hok
    rw [insert_wc_withvalue K V C I Ca t w key0 val (not_not.mp hkey) hval k] at hok
    obtain ⟨w2, hw2, hn'⟩ := except_map_ok _ _ _ hok
    subst hn'
    obtain ⟨hidx, hne2, hnd, hch, hw, hca⟩ := treeInv_fields hinv
    obtain ⟨hw2inv, _⟩ := ih (treeInv_withValue w (some val) (hw w rfl)) w2 hw2
    exact ⟨treeInv.mk K V C I (some w2) Ca t hidx hne2 hnd hch
      (fun x hx => Option.some.inj hx ▸ hw2inv) hca, rfl⟩
  -- m2c5: wildcard slot reused without a value
  · intro k K V C I Ca t key0 w hkey ih hinv n' hok
    rw [insert_wc_novalue K V C I Ca t w key0 (not_not.mp hkey) k] at hok
    obtain ⟨w2, hw2, hn'⟩ := except_map_ok _ _ _ hok
    subst hn'
    obtain ⟨hidx, hne2, hnd, hch, hw, hca⟩ := treeInv_fields hinv
    obtain ⟨hw2inv, _⟩ := ih (hw w rfl) w2 hw2
    exact ⟨treeInv.mk K V C I (some w2) Ca t hidx hne2 hnd hch
      (fun x hx => Option.some.inj hx ▸ hw2inv) hca, rfl⟩
  -- m2c6: fresh wildcard slot
  · intro v k K V C I Ca t key0 ih hinv n' hok
    rw [insert_wc_fresh K V C I Ca t key0 v k] at hok
    obtain ⟨w2, hw2, hn'⟩ := except_map_ok _ _ _ hok
    subst hn'
    obtain ⟨hidx, hne2, hnd, hch, hw, hca⟩ := treeInv_fields hinv
    obtain ⟨hw2inv, _⟩ := ih (treeInv_leaf key0 v NodeType.wildcard) w2 hw2
    exact ⟨treeInv.mk K V C I (some w2) Ca t hidx hne2 hnd hch
      (fun x hx => Option.some.inj hx ▸ hw2inv) hca, rfl⟩
  -- m2c7: catchall name mismatch
  · intro v k K V C I W t key0 w hne hx hinv n' hok
    rw [catchall_mismatch_errors K V C I W t w key0 v k hne] at hok
    cases hok
  -- m2c8: catchall redeclaration
  · intro v k K V C I W t key0 w hkey hx hinv n' hok
    have hkeq : w.Key = key0 := not_not.mp hkey
    subst hkeq
    rw [catchall_redeclaration_errors K V C I W t w v k] at hok
    cases hok
  -- m2c9: fresh catchall slot
  · intro v k K V C I W t key0 hx ih hinv n' hok
    rw [insert_ca_fresh K V C I W t key0 v k] at hok
    obtain ⟨c2, hc2, hn'⟩ := except_map_ok _ _ _ hok
    subst hn'
    obtain ⟨hidx, hne2, hnd, hch, hw, hca⟩ := treeInv_fields hinv
    obtain ⟨hc2inv, _⟩ := ih (treeInv_leaf key0 v NodeType.catchall) c2 hc2
    exact ⟨treeInv.mk K V C I W (some c2) t hidx hne2 hnd hch hw
      (fun x hx2 => Option.some.inj hx2 ▸ hc2inv), rfl⟩
  -- m2c10: static branch, child insertion errors
  · intro v k K V C I W Ca t b0 key0 hb1 hb2 e hic ih3 hinv n' hok
    rw [insert_static_err K V C I W Ca t b0 key0 v k e hb1 hb2 hic] at hok
    cases hok
  -- m2c11: static branch, children updated in place
  · intro v k K V C I W Ca t b0 key0 hb1 hb2 cs2 hic ih3 hinv n' hok
    rw [insert_static_some K V C I W Ca t b0 key0 v k cs2 hb1 hb2 hic] at hok
    obtain rfl := Except.ok.inj hok
    obtain ⟨hidx, hne2, hnd, hch, hw, hca⟩ := treeInv_fields hinv
    obtain ⟨hcs2, hheads⟩ := (ih3 hch hne2).2 cs2 hic
    refine ⟨treeInv.mk K V cs2 I W Ca t ?_ (fun c hc => (hcs2 c hc).2) hnd
      (fun c hc => (hcs2 c hc).1) hw hca, rfl⟩
    rw [hidx]
    exact hheads.symm
  -- m2c12: static branch, fresh child appended
  · intro v k K V C I W Ca t b0 key0 hb1 hb2 hic ih3 ih4 hinv n' hok
    rw [insert_static_none K V C I W Ca t b0 key0 v k hb1 hb2 hic] at hok
    obtain ⟨t2, ht2, hn'⟩ := except_map_ok _ _ _ hok
    subst hn'
    obtain ⟨hidx, hne2, hnd, hch, hw, hca⟩ := treeInv_fields hinv
    obtain ⟨ht2inv, ht2key⟩ := ih4 (treeInv_leaf (b0 :: key0) v NodeType.static) t2 ht2
    have hcp0 := (ih3 hch hne2).1 hic
    have hb0 : b0 ∉ I := by
      rw [hidx]
      intro hmem
      obtain ⟨c, hc, hcb⟩ := List.mem_map.mp hmem
      have h0 := hcp0 c hc
      have h1 : commonPrefixLength c.Key (b0 :: key0) < c.Key.length := by
        rw [h0]; exact List.length_pos.mpr (hne2 c hc)
      have h2 : commonPrefixLength c.Key (b0 :: key0) < (b0 :: key0).length := by
        rw [h0]; simp
      have hne3 := cpl_drop_head_ne c.Key (b0 :: key0) ' ' h1 h2
      rw [h0, List.drop_zero, List.drop_zero] at hne3
      exact hne3 (by rw [List.headD_cons]; exact hcb)
    refine ⟨treeInv.mk K V (C ++ [t2]) (I ++ [b0]) W Ca t ?_ ?_ ?_ ?_ hw hca, rfl⟩
    · rw [List.map_append, ← hidx]
      simp only [List.map_cons, List.map_nil]
      rw [ht2key, key_mk]
      rfl
    · intro c hc
      rcases List.mem_append.mp hc with h | h
      · exact hne2 c h
      · simp only [List.mem_singleton] at h
        subst h
        rw [ht2key, key_mk]
        simp
    · rw [List.nodup_append]
      exact ⟨hnd, List.nodup_singleton b0, by simpa using hb0⟩
    · intro c hc
      rcases List.mem_append.mp hc with h | h
      · exact hch c h
      · simp only [List.mem_singleton] at h
        subst h
        exact ht2inv
  -- m3c1: no children
  · intro key v k h1 h2
    constructor
    · intro _ c hc
      cases hc
    · intro cs2 h
      rw [ichildren_nil] at h
      simp at h
  -- m3c2: exact key match on an occupied child
  · intro k c cs val val1 hval h1 h2
    have hstep := ichildren_exact_occupied c cs val1 val k hval
    constructor
    · intro h
      rw [hstep] at h
      cases h
    · intro cs2 h
      rw [hstep] at h
      cases h
  -- m3c3: exact key match installs the value
  · intro k c cs val hval ih4 h1 h2
    have hstep := ichildren_exact_withvalue c cs val k hval
    constructor
    · intro h
      rw [hstep] at h
      obtain ⟨a, _, hEq⟩ := except_map_ok _ _ _ h
      simp at hEq
    · intro cs2 h
      rw [hstep] at h
      obtain ⟨c2, hc2, hEq⟩ := except_map_ok _ _ _ h
      obtain rfl := Option.some.inj hEq
      obtain ⟨hinv2, hkey2⟩ :=
        ih4 (treeInv_withValue c (some val) (h1 c (List.mem_cons_self c cs))) c2 hc2
      rw [key_withValue] at hkey2
      constructor
      · intro x hx
        rcases List.mem_cons.mp hx with rfl | hx'
        · exact ⟨hinv2, by rw [hkey2]; exact h2 c (List.mem_cons_self c cs)⟩
        · exact ⟨h1 x (List.mem_cons_of_mem c hx'), h2 x (List.mem_cons_of_mem c hx')⟩
      · simp [hkey2]
  -- m3c4: exact key match without a value
  · intro k c cs ih4 h1 h2
    have hstep := ichildren_exact_novalue c cs k
    constructor
    · intro h
      rw [hstep] at h
      obtain ⟨a, _, hEq⟩ := except_map_ok _ _ _ h
      simp at hEq
    · intro cs2 h
      rw [hstep] at h
      obtain ⟨c2, hc2, hEq⟩ := except_map_ok _ _ _ h
      obtain rfl := Option.some.inj hEq
      obtain ⟨hinv2, hkey2⟩ := ih4 (h1 c (List.mem_cons_self c cs)) c2 hc2
      constructor
      · intro x hx
        rcases List.mem_cons.mp hx with rfl | hx'
        · exact ⟨hinv2, by rw [hkey2]; exact h2 c (List.mem_cons_self c cs)⟩
        · exact ⟨h1 x (List.mem_cons_of_mem c hx'), h2 x (List.mem_cons_of_mem c hx')⟩
      · simp [hkey2]
  -- m3c5: no common prefix, skip to the next child
  · intro key v k c cs hne cp hcp ih3 h1 h2
    have hcp0 : commonPrefixLength c.Key key = 0 := hcp
    have hstep := ichildren_skip c cs key v k hne hcp0
    have h1' : ∀ x ∈ cs, treeInv x := fun x hx => h1 x (List.mem_cons_of_mem c hx)
    have h2' : ∀ x ∈ cs, x.Key ≠ [] := fun x hx => h2 x (List.mem_cons_of_mem c hx)
    obtain ⟨ihnone, ihsome⟩ := ih3 h1' h2'
    constructor
    · intro h x hx
      rw [hstep] at h
      obtain ⟨r, hr, hEq⟩ := except_map_ok _ _ _ h
      cases r with
      | some cs2 => simp at hEq
      | none =>
        rcases List.mem_cons.mp hx with rfl | hx'
        · exact hcp0
        · exact ihnone hr x hx'
    · intro cs2 h
      rw [hstep] at h
      obtain ⟨r, hr, hEq⟩ := except_map_ok _ _ _ h
      cases r with
      | none => simp at hEq
      | some cs2' =>
        obtain rfl := Option.some.inj hEq
        obtain ⟨ha, hb⟩ := ihsome cs2' hr
        constructor
        · intro x hx
          rcases List.mem_cons.mp hx with rfl | hx'
          · exact ⟨h1 x (List.mem_cons_self x cs), h2 x (List.mem_cons_self x cs)⟩
          · exact ha x hx'
        · simp only [List.map_cons]
          rw [hb]
  -- m3c6: prefix covers the whole child key, insert into the child
  · intro key v k c cs hne cp hcp hcl ih2 h1 h2
    have hcp' : ¬commonPrefixLength c.Key key = 0 := hcp
    have hcl' : commonPrefixLength c.Key key = c.Key.length := hcl
    have hstep := ichildren_into c cs key v k hne hcp' hcl'
    constructor
    · intro h
      rw [hstep] at h
      obtain ⟨a, _, hEq⟩ := except_map_ok _ _ _ h
      simp at hEq
    · intro cs2 h
      rw [hstep] at h
      obtain ⟨c2, hc2, hEq⟩ := except_map_ok _ _ _ h
      obtain rfl := Option.some.inj hEq
      obtain ⟨hinv2, hkey2⟩ := ih2 (h1 c (List.mem_cons_self c cs)) c2 hc2
      constructor
      · intro x hx
        rcases List.mem_cons.mp hx with rfl | hx'
        · exact ⟨hinv2, by rw [hkey2]; exact h2 c (List.mem_cons_self c cs)⟩
        · exact ⟨h1 x (List.mem_cons_of_mem c hx'), h2 x (List.mem_cons_of_mem c hx')⟩
      · simp [hkey2]
  -- m3c7: key is a proper prefix of the child key, split above the child
  · intro key v k c cs hne cp hcp hcl trimmed hkl ih4 h1 h2
    have hcp' : ¬commonPrefixLength c.Key key = 0 := hcp
    have hcl' : ¬commonPrefixLength c.Key key = c.Key.length := hcl
    have hkl' : commonPrefixLength c.Key key = key.length := hkl
    have hstep := ichildren_splitAt c cs key v k hne hcp' hcl' hkl'
    have hclt : commonPrefixLength c.Key key < c.Key.length :=
      lt_of_le_of_ne (cpl_le_left c.Key key) hcl'
    have hdne : c.Key.drop (commonPrefixLength c.Key key) ≠ [] := by
      apply List.ne_nil_of_length_pos
      rw [List.length_drop]
      omega
    have hkne : key ≠ [] := fun h => hcp' (by rw [h, cpl_nil_right])
    have hBinv : treeInv
        (node.mk key v [c.withKey (c.Key.drop (commonPrefixLength c.Key key))]
          [(c.Key.drop (commonPrefixLength c.Key key)).headD ' '] none none
          NodeType.static) := by
      refine treeInv.mk _ _ _ _ _ _ _ (by simp [key_withKey]) ?_ (by simp) ?_
        (fun x hx => by cases hx) (fun x hx => by cases hx)
      · intro x hx
        simp only [List.mem_singleton] at hx
        subst hx
        rw [key_withKey]
        exact hdne
      · intro x hx
        simp only [List.mem_singleton] at hx
        subst hx
        exact treeInv_withKey c _ (h1 c (List.mem_cons_self c cs))
    constructor
    · intro h
      rw [hstep] at h
      obtain ⟨a, _, hEq⟩ := except_map_ok _ _ _ h
      simp at hEq
    · intro cs2 h
      rw [hstep] at h
      obtain ⟨b2, hb2, hEq⟩ := except_map_ok _ _ _ h
      obtain rfl := Option.some.inj hEq
      obtain ⟨hinv2, hkey2⟩ := ih4 hBinv b2 hb2
      have hkey2' : b2.Key = key := hkey2
      constructor
      · intro x hx
        rcases List.mem_cons.mp hx with rfl | hx'
        · exact ⟨hinv2, by rw [hkey2']; exact hkne⟩
        · exact ⟨h1 x (List.mem_cons_of_mem c hx'), h2 x (List.mem_cons_of_mem c hx')⟩
      · have hh : key.headD ' ' = c.Key.headD ' ' := (cpl_head_eq c.Key key ' ' hcp').symm
        simp only [List.map_cons]
        rw [hkey2', hh]
  -- m3c8: proper split into a new branch node
  · intro key v k c cs hne cp hcp hcl hkl ih4 h1 h2
    have hcp' : ¬commonPrefixLength c.Key key = 0 := hcp
    have hcl' : ¬commonPrefixLength c.Key key = c.Key.length := hcl
    have hkl' : ¬commonPrefixLength c.Key key = key.length := hkl
    have hstep := ichildren_splitBoth c cs key v k hne hcp' hcl' hkl'
    have hclt : commonPrefixLength c.Key key < c.Key.length :=
      lt_of_le_of_ne (cpl_le_left c.Key key) hcl'
    have hklt : commonPrefixLength c.Key key < key.length :=
      lt_of_le_of_ne (cpl_le_right c.Key key) hkl'
    have hdne1 : c.Key.drop (commonPrefixLength c.Key key) ≠ [] := by
      apply List.ne_nil_of_length_pos
      rw [List.length_drop]
      omega
    have hdne2 : key.drop (commonPrefixLength c.Key key) ≠ [] := by
      apply List.ne_nil_of_length_pos
      rw [List.length_drop]
      omega
    have hheadne := cpl_drop_head_ne c.Key key ' ' hclt hklt
    constructor
    · intro h
      rw [hstep] at h
      obtain ⟨a, _, hEq⟩ := except_map_ok _ _ _ h
      simp at hEq
    · intro cs2 h
      rw [hstep] at h
      obtain ⟨target, htg, hEq⟩ := except_map_ok _ _ _ h
      obtain ⟨htinv, htkey⟩ := ih4 (treeInv_leaf _ v NodeType.static) target htg
      obtain rfl := Option.some.inj hEq
      have hB2inv : treeInv
          (node.mk (key.take (commonPrefixLength c.Key key)) none
            [c.withKey (c.Key.drop (commonPrefixLength c.Key key)), target]
            [(c.Key.drop (commonPrefixLength c.Key key)).headD ' ',
              (key.drop (commonPrefixLength c.Key key)).headD ' '] none none
            NodeType.static) := by
        refine treeInv.mk _ _ _ _ _ _ _ ?_ ?_ ?_ ?_
          (fun x hx => by cases hx) (fun x hx => by cases hx)
        · simp only [List.map_cons, List.map_nil]
          rw [key_withKey, htkey, key_mk]
        · intro x hx
          rcases List.mem_cons.mp hx with rfl | hx'
          · rw [key_withKey]; exact hdne1
          · simp only [List.mem_singleton] at hx'
            subst hx'
            rw [htkey]
            exact hdne2
        · exact List.nodup_cons.mpr ⟨by simpa using hheadne, List.nodup_singleton _⟩
        · intro x hx
          rcases List.mem_cons.mp hx with rfl | hx'
          · exact treeInv_withKey c _ (h1 c (List.mem_cons_self c cs))
          · simp only [List.mem_singleton] at hx'
            subst hx'
            exact htinv
      have htakeK : key.take (commonPrefixLength c.Key key) ≠ [] := by
        apply List.ne_nil_of_length_pos
        rw [List.length_take]
        have := cpl_le_right c.Key key
        omega
      constructor
      · intro x hx
        rcases List.mem_cons.mp hx with rfl | hx'
        · exact ⟨hB2inv, htakeK⟩
        · exact ⟨h1 x (List.mem_cons_of_mem c hx'), h2 x (List.mem_cons_of_mem c hx')⟩
      · have hh : (key.take (commonPrefixLength c.Key key)).headD ' ' = c.Key.headD ' ' := by
          rw [headD_take_ne_zero key (commonPrefixLength c.Key key) ' ' hcp']
          exact (cpl_head_eq c.Key key ' ' hcp').symm
        simp only [List.map_cons, key_mk]
        rw [hh]
  -- m4c1: done
  · intro t hinv t' hok
    rw [applyCont_done] at hok
    obtain rfl := Except.ok.inj hok
    exact ⟨hinv, rfl⟩
  -- m4c2: dynTerm
  · intro t post v ih hinv t' hok
    rw [applyCont_dynTerm] at hok
    exact ih hinv t' hok
  -- m4c3: dynThen
  · intro t seg rest v ih hinv t' hok
    rw [applyCont_dynThen] at hok
    exact ih hinv t' hok
  -- m4c4: goRest
  · intro t rest v ih hinv t' hok
    rw [applyCont_goRest] at hok
    exact ih hinv t' hok

theorem Insert_preserves (n : node) (key : Str) (v : value) (n' : node)
    (hinv : treeInv n) (hok : node.Insert n key v = Except.ok n') :
    treeInv n' ∧ n'.Key = n.Key := by
  match key with
  | [] =>
    rw [Insert_nil] at hok
    exact insert_preserves n [] (some v) Cont.done hinv n' hok
  | b0 :: key0 =>
    cases hf : (b0 :: key0).findIdx? (fun c => c = ':' || c = '*') with
    | none =>
      rw [Insert_noDyn n b0 key0 v hf] at hok
      exact insert_preserves _ _ _ _ hinv n' hok
    | some idx =>
      by_cases h0 : idx = 0
      · subst h0
        rw [Insert_dynZero n b0 key0 v hf] at hok
        cases hok
      · cases hf2 : ((b0 :: key0).drop idx).findIdx? (fun c => c = '/') with
        | none =>
          rw [Insert_dynTerm n b0 key0 v idx hf h0 hf2] at hok
          exact insert_preserves _ _ _ _ hinv n' hok
        | some sIdx =>
          by_cases hstar : ((b0 :: key0).drop idx).headD ' ' = '*'
          · rw [Insert_catchSeg n b0 key0 v idx sIdx hf h0 hf2 hstar] at hok
            cases hok
          · rw [Insert_dynThen n b0 key0 v idx sIdx hf h0 hf2 hstar] at hok
            exact insert_preserves _ _ _ _ hinv n' hok

theorem emptyNode_inv : treeInv emptyNode := treeInv_leaf [] none NodeType.static

theorem Handle_preserves (m : Mux) (p : Str) (hd : Handler) (m2 : Mux)
    (hinv : treeInv m.root) (hok : m.Handle p hd = Except.ok m2) :
    treeInv m2.root := by
  match p with
  | [] => simp [Mux.Handle] at hok
  | b :: rest =>
    simp only [Mux.Handle] at hok
    by_cases hb : b = '/'
    · rw [if_neg (by simp [hb])] at hok
      obtain ⟨r, hr, hm2⟩ := except_map_ok _ _ _ hok
      subst hm2
      exact (Insert_preserves m.root (b :: rest) ⟨hd, b :: rest⟩ r hinv hr).1
    · rw [if_pos (by simp [hb])] at hok
      cases hok

theorem registerAll_inv : ∀ (ps : List Str) (m : Mux) (i : Nat) (m2 : Mux),
    treeInv m.root → registerAll m ps i = Except.ok m2 → treeInv m2.root
  | [], m, i, m2, hinv, hok => by
    simp only [registerAll] at hok
    obtain rfl := Except.ok.inj hok
    exact hinv
  | p :: ps, m, i, m2, hinv, hok => by
    simp only [registerAll] at hok
    cases hh : m.Handle p (Handler.hid i) with
    | error e =>
      rw [hh] at hok
      simp [Except.bind] at hok
    | ok mm =>
      rw [hh] at hok
      simp only [Except.bind] at hok
      exact registerAll_inv ps mm (i + 1) m2
        (Handle_preserves m p (Handler.hid i) mm hinv hh) hok

/-- C9: the radix-trie structural invariant is preserved by every successful
insertion.  `treeInv` states, at every node of the trie, that the `Indices`
bytes are exactly the first bytes of the static children's keys in order,
that those keys are non-empty, and that the index bytes are pairwise
distinct.  The empty mux satisfies it, `node.Insert` and `registerAll`
preserve it, and at any node satisfying it the sibling static keys pairwise
share no non-empty common prefix while `Indices[i]` is the first byte of
`Children[i].Key`. -/
theorem claim_C9 :
    treeInv New.root ∧
    (∀ (n : node) (key : Str) (v : value) (n' : node),
      treeInv n → node.Insert n key v = Except.ok n' → treeInv n') ∧
    (∀ (ps : List Str) (m : Mux),
      registerAll New ps = Except.ok m → treeInv m.root) ∧
    (∀ n, treeInv n →
      n.Indices = n.Children.map (fun c => c.Key.headD ' ') ∧
      List.Pairwise (fun a b => commonPrefixLength a.Key b.Key = 0) n.Children) := by
  refine ⟨emptyNode_inv, ?_, ?_, ?_⟩
  · intro n key v n' hinv hok
    exact (Insert_preserves n key v n' hinv hok).1
  · intro ps m hok
    exact registerAll_inv ps New 0 m emptyNode_inv hok
  · intro n hinv
    obtain ⟨K, V, C, I, W, Ca, t⟩ := n
    obtain ⟨hidx, hne2, hnd, hch, hw, hca⟩ := treeInv_fields hinv
    refine ⟨hidx, ?_⟩
    rw [hidx] at hnd
    have hpw : List.Pairwise (fun a b : node => a.Key.headD ' ' ≠ b.Key.headD ' ') C :=
      List.pairwise_map.mp hnd
    refine hpw.imp ?_
    intro a b hab
    by_contra hcp
    exact hab (cpl_head_eq a.Key b.Key ' ' hcp)

/-- C9 witness: the insertion-preservation conjunct of `claim_C9` applied to
the empty root and the pattern `/a`, whose invariant-satisfying result tree
is spelled out. -/
theorem claim_C9_witness :
    treeInv
      (node.mk [] none
        [node.mk "/a".toList (some ⟨Handler.hid 0, "/a".toList⟩) [] [] none none
          NodeType.static] ['/'] none none NodeType.static) :=
  claim_C9.2.1 emptyNode "/a".toList ⟨Handler.hid 0, "/a".toList⟩ _
    claim_C9.1
    (by simp [node.Insert, node.insert, insertChildren, applyCont, emptyNode, node.Key,
      node.Value, node.withValue, node.withKey, Except.map, commonPrefixLength])

/-- Register a list of pattern–handler pairs in order (the handler is tied to
its pattern, not to the registration position, so different orders can be
compared). -/
def handleAll (m : Mux) : List (Str × Handler) → Except Err Mux
  | [] => Except.ok m
  | (p, h) :: ps => (m.Handle p h).bind (fun m2 => handleAll m2 ps)

/-- The three literal chain patterns of C8 with their handlers. -/
def chainA : Str × Handler := ("/a".toList, Handler.hid 0)

def chainB : Str × Handler := ("/a/b".toList, Handler.hid 1)

def chainC : Str × Handler := ("/a/b/c".toList, Handler.hid 2)

/-- All six insertion orders of the chain patterns. -/
def chainPerms : List (List (Str × Handler)) :=
  [[chainA, chainB, chainC], [chainA, chainC, chainB],
   [chainB, chainA, chainC], [chainB, chainC, chainA],
   [chainC, chainA, chainB], [chainC, chainB, chainA]]

/-- The radix trie every order of the chain registrations produces. -/
def chainTree : node :=
  node.mk [] none
    [node.mk "/a".toList (some ⟨Handler.hid 0, "/a".toList⟩)
      [node.mk "/b".toList (some ⟨Handler.hid 1, "/a/b".toList⟩)
        [node.mk "/c".toList (some ⟨Handler.hid 2, "/a/b/c".toList⟩) [] []
          none none NodeType.static]
        ['/'] none none NodeType.static]
      ['/'] none none NodeType.static]
    ['/'] none none NodeType.static

theorem chainOrder1 :
    handleAll New [chainA, chainB, chainC] = Except.ok ⟨chainTree, false⟩ := by
  simp [handleAll, chainA, chainB, chainC, New, Mux.Handle, node.Insert, node.insert,
    insertChildren, applyCont, commonPrefixLength, emptyNode, node.Key, node.Value,
    node.withValue, node.withKey, Except.map, Except.bind, chainTree]

theorem chainOrder2 :
    handleAll New [chainA, chainC, chainB] = Except.ok ⟨chainTree, false⟩ := by
  simp [handleAll, chainA, chainB, chainC, New, Mux.Handle, node.Insert, node.insert,
    insertChildren, applyCont, commonPrefixLength, emptyNode, node.Key, node.Value,
    node.withValue, node.withKey, Except.map, Except.bind, chainTree]

theorem chainOrder3 :
    handleAll New [chainB, chainA, chainC] = Except.ok ⟨chainTree, false⟩ := by
  simp [handleAll, chainA, chainB, chainC, New, Mux.Handle, node.Insert, node.insert,
    insertChildren, applyCont, commonPrefixLength, emptyNode, node.Key, node.Value,
    node.withValue, node.withKey, Except.map, Except.bind, chainTree]

theorem chainOrder4 :
    handleAll New [chainB, chainC, chainA] = Except.ok ⟨chainTree, false⟩ := by
  simp [handleAll, chainA, chainB, chainC, New, Mux.Handle, node.Insert, node.insert,
    insertChildren, applyCont, commonPrefixLength, emptyNode, node.Key, node.Value,
    node.withValue, node.withKey, Except.map, Except.bind, chainTree]

theorem chainOrder5 :
    handleAll New [chainC, chainA, chainB] = Except.ok ⟨chainTree, false⟩ := by
  simp [handleAll, chainA, chainB, chainC, New, Mux.Handle, node.Insert, node.insert,
    insertChildren, applyCont, commonPrefixLength, emptyNode, node.Key, node.Value,
    node.withValue, node.withKey, Except.map, Except.bind, chainTree]

theorem chainOrder6 :
    handleAll New [chainC, chainB, chainA] = Except.ok ⟨chainTree, false⟩ := by
  simp [handleAll, chainA, chainB, chainC, New, Mux.Handle, node.Insert, node.insert,
    insertChildren, applyCont, commonPrefixLength, emptyNode, node.Key, node.Value,
    node.withValue, node.withKey, Except.map, Except.bind, chainTree]

/-- All six orders of registering the chain `/a`, `/a/b`, `/a/b/c` produce the
same mux, hence identical routing on every request path. -/
theorem chainOrder_independent :
    (∀ perm ∈ chainPerms, handleAll New perm = Except.ok ⟨chainTree, false⟩) ∧
    (∀ perm1 ∈ chainPerms, ∀ perm2 ∈ chainPerms, ∀ (m1 m2 : Mux),
      handleAll New perm1 = Except.ok m1 → handleAll New perm2 = Except.ok m2 →
      ∀ path : Str, Mux.ServeHTTPx m1 path = Mux.ServeHTTPx m2 path) := by
  have hall : ∀ perm ∈ chainPerms, handleAll New perm = Except.ok ⟨chainTree, false⟩ := by
    intro perm hperm
    simp only [chainPerms, List.mem_cons, List.not_mem_nil, or_false] at hperm
    rcases hperm with rfl | rfl | rfl | rfl | rfl | rfl
    · exact chainOrder1
    · exact chainOrder2
    · exact chainOrder3
    · exact chainOrder4
    · exact chainOrder5
    · exact chainOrder6
  refine ⟨hall, ?_⟩
  intro p1 h1 p2 h2 m1 m2 hm1 hm2 path
  rw [hall p1 h1] at hm1
  rw [hall p2 h2] at hm2
  obtain rfl := Except.ok.inj hm1
  obtain rfl := Except.ok.inj hm2
  rfl

theorem orFallback_none (r : Option value) : orFallback r none = r := by
  cases r <;> rfl

theorem orFallback_orFallback (r f : Option value) :
    orFallback (orFallback r none) f = orFallback r f := by
  cases r <;> rfl

theorem orFallback_of_isSome (r f : Option value) (h : r.isSome = true) :
    orFallback r f = r := by
  cases r
  · simp at h
  · rfl

theorem isSubdir_isSome (n : node) (h : n.IsSubdirNode = true) :
    n.Value.isSome = true := by
  simp [node.IsSubdirNode] at h
  exact h.1

theorem walk_some :
    ∀ (n : node) (path : Str) (params : List Param) (mts : Bool)
      (backup : Option node) (fallback : Option value),
      fallback.isSome = true →
      ((node.lookupWalk n path params mts backup fallback).1).isSome = true := by
  refine node.lookupWalk.induct
    (fun n path params mts backup fallback =>
      fallback.isSome = true →
      ((node.lookupWalk n path params mts backup fallback).1).isSome = true)
    (fun n path params mts fallback =>
      fallback.isSome = true →
      ((node.lookupTail n path params mts fallback).1).isSome = true)
    (fun is cs t path params mts backup fallback =>
      fallback.isSome = true →
      ∀ r, node.lookupChildren is cs t path params mts backup fallback = some r →
        (r.1).isSome = true)
    ?_ ?_ ?_ ?_ ?_ ?_ ?_ ?_ ?_ ?_ ?_ ?_ ?_ ?_ ?_ ?_
  -- c1: static, prefix ok, path exhausted
  · intro path params mts backup fb K V C I W Ca h1
    dsimp only
    intro h2 hf
    rw [node.lookupWalk.eq_def]
    dsimp only
    rw [if_pos h1, if_pos h2]
    cases V <;> simp [orFallback, hf]
  -- c2: static, prefix ok, descend into the tail
  · intro path params mts backup fb K V C I W Ca h1
    dsimp only
    intro h2 ih hf
    rw [node.lookupWalk.eq_def]
    dsimp only
    rw [if_pos h1, if_neg h2]
    simp only [dite_eq_ite] at ih
    by_cases hsub : (node.mk K V C I W Ca NodeType.static).IsSubdirNode = true
    · rw [if_pos hsub] at ih ⊢
      exact ih (by simpa [node.Value] using isSubdir_isSome _ hsub)
    · rw [if_neg hsub] at ih ⊢
      exact ih hf
  -- c3: static dead-end, resume at backup
  · intro path params mts fb K V C I W Ca h1 w ih hf
    rw [node.lookupWalk.eq_def]
    dsimp only
    rw [if_neg h1]
    exact ih hf
  -- c4: redirect synthesis
  · intro path params mts fb K V C I W Ca h1 h2 hf
    rw [node.lookupWalk.eq_def]
    dsimp only
    rw [if_neg h1, if_pos h2]
    rfl
  -- c5: static dead-end, no backup, no redirect
  · intro path params mts fb K V C I W Ca h1 h2 hf
    rw [node.lookupWalk.eq_def]
    dsimp only
    rw [if_neg h1, if_neg h2]
    cases fb <;> simp [orFallback] at hf ⊢
  -- c6: wildcard, no further slash
  · intro path params mts backup fb K V C I W Ca hfind hf
    rw [node.lookupWalk.eq_def]
    dsimp only
    rw [hfind]
    cases V <;> simp [orFallback, hf]
  -- c7: wildcard, descend at the slash
  · intro path params mts backup fb K V C I W Ca idx hfind ih hf
    rw [node.lookupWalk.eq_def]
    dsimp only
    rw [hfind]
    exact ih hf
  -- c8: catchall
  · intro path params mts backup fb K V C I W Ca hf
    rw [node.lookupWalk.eq_def]
    dsimp only
    cases V <;> simp [orFallback, hf]
  -- c9: tail on the empty path
  · intro params mts fb K V C I W Ca t hf
    rw [node.lookupTail.eq_def]
    dsimp only
    cases fb <;> simp [orFallback] at hf ⊢
  -- c10: tail, a static child claims the first byte
  · intro params mts fb K V C I W Ca t b0 key0 r
    dsimp only
    intro hLC ih3 hf
    simp only [dite_eq_ite] at hLC ih3
    rw [node.lookupTail.eq_def]
    dsimp only
    rw [hLC]
    dsimp only
    refine ih3 ?_ r hLC
    by_cases hov : (mts && decide (b0 :: key0 = ['/']) && V.isSome) = true
    · rw [if_pos hov]
      exact (Bool.and_eq_true_iff.mp hov).2
    · rw [if_neg hov]
      exact hf
  -- c11: tail, no child match, catchall present
  · intro params mts fb K V C I W t b0 key0 w
    dsimp only
    intro hLC ih3 ih1 hf
    simp only [dite_eq_ite] at hLC ih3 ih1
    rw [node.lookupTail.eq_def]
    dsimp only
    rw [hLC]
    dsimp only
    refine ih1 ?_
    by_cases hov : (mts && decide (b0 :: key0 = ['/']) && V.isSome) = true
    · rw [if_pos hov]
      exact (Bool.and_eq_true_iff.mp hov).2
    · rw [if_neg hov]
      exact hf

  -- c12: tail, no child match, no catchall, wildcard present
  · intro params mts fb K V C I t b0 key0 w
    dsimp only
    intro hLC ih3 ih1 hf
    simp only [dite_eq_ite] at hLC ih3 ih1
    rw [node.lookupTail.eq_def]
    dsimp only
    rw [hLC]
    dsimp only
    refine ih1 ?_
    by_cases hov : (mts && decide (b0 :: key0 = ['/']) && V.isSome) = true
    · rw [if_pos hov]
      exact (Bool.and_eq_true_iff.mp hov).2
    · rw [if_neg hov]
      exact hf

  -- c13: tail, nothing left to try
  · intro params mts fb K V C I t b0 key0
    dsimp only
    intro hLC ih3 hf
    simp only [dite_eq_ite] at hLC ih3
    rw [node.lookupTail.eq_def]
    dsimp only
    rw [hLC]
    dsimp only
    by_cases hov : (mts && decide (b0 :: key0 = ['/']) && V.isSome) = true
    · rw [if_pos hov]
      cases V <;> simp [orFallback] at hov ⊢
    · rw [if_neg hov]
      cases fb <;> simp [orFallback] at hf ⊢
  -- c14: children scan, index matches
  · intro path params mts backup fb i is c cs ih hf r hr
    rw [node.lookupChildren.eq_def] at hr
    dsimp only at hr
    rw [if_pos rfl] at hr
    obtain rfl := Option.some.inj hr
    exact ih hf
  -- c15: children scan, index differs
  · intro t path params mts backup fb i is c cs hne ih hf r hr
    rw [node.lookupChildren.eq_def] at hr
    try dsimp only at hr
    rw [if_neg hne] at hr
    exact ih hf r hr
  -- c16: children scan exhausted
  · intro is cs t path params mts backup fb himp hf r hr
    rw [node.lookupChildren.eq_def] at hr
    try dsimp only at hr
    match is, cs, hr with
    | [], _, hr => cases hr
    | _ :: _, [], hr => cases hr
    | i :: is', c :: cs', hr => exact (himp i is' c cs' rfl rfl).elim

theorem lc_some : ∀ (is : List Char) (cs : List node) (t : Char) (path : Str)
    (params : List Param) (mts : Bool) (backup : Option node) (fb : Option value),
    fb.isSome = true → ∀ r,
      node.lookupChildren is cs t path params mts backup fb = some r →
      (r.1).isSome = true
  | i :: is, c :: cs, t, path, params, mts, backup, fb => by
    intro hf r hr
    rw [node.lookupChildren.eq_def] at hr
    try dsimp only at hr
    by_cases hit : i = t
    · rw [if_pos hit] at hr
      obtain rfl := Option.some.inj hr
      exact walk_some c path params mts backup fb hf
    · rw [if_neg hit] at hr
      exact lc_some is cs t path params mts backup fb hf r hr
  | [], _, t, path, params, mts, backup, fb => by
    intro hf r hr
    rw [node.lookupChildren.eq_def] at hr
    try dsimp only at hr
    cases hr
  | _ :: _, [], t, path, params, mts, backup, fb => by
    intro hf r hr
    rw [node.lookupChildren.eq_def] at hr
    try dsimp only at hr
    cases hr

theorem tail_some (n : node) (path : Str) (params : List Param) (mts : Bool)
    (fb : Option value) (hf : fb.isSome = true) :
    ((node.lookupTail n path params mts fb).1).isSome = true := by
  obtain ⟨K, V, C, I, W, Ca, t⟩ := n
  rw [node.lookupTail.eq_def]
  dsimp only
  cases path with
  | nil =>
    cases fb <;> simp [orFallback] at hf ⊢
  | cons b0 rest =>
    dsimp only
    by_cases hov : (mts && decide (b0 :: rest = ['/']) && V.isSome) = true
    · rw [if_pos hov]
      have hvs : V.isSome = true := (Bool.and_eq_true_iff.mp hov).2
      cases hLC : node.lookupChildren I C b0 (b0 :: rest) params mts W V with
      | some r =>
        dsimp only
        exact lc_some I C b0 (b0 :: rest) params mts W V hvs r hLC
      | none =>
        dsimp only
        cases Ca with
        | some ca => exact walk_some ca (b0 :: rest) params mts W V hvs
        | none =>
          cases W with
          | some w => exact walk_some w (b0 :: rest) params mts none V hvs
          | none => cases V <;> simp [orFallback] at hvs ⊢
    · rw [if_neg hov]
      cases hLC : node.lookupChildren I C b0 (b0 :: rest) params mts W fb with
      | some r =>
        dsimp only
        exact lc_some I C b0 (b0 :: rest) params mts W fb hf r hLC
      | none =>
        dsimp only
        cases Ca with
        | some ca => exact walk_some ca (b0 :: rest) params mts W fb hf
        | none =>
          cases W with
          | some w => exact walk_some w (b0 :: rest) params mts none fb hf
          | none => cases fb <;> simp [orFallback] at hf ⊢

theorem subdir_overwrites (K : Str) (v : value) (C : List node) (I : List Char)
    (W Ca : Option node) (path : Str) (params : List Param) (mts : Bool)
    (backup : Option node) (fb : Option value)
    (h1 : path.take K.length = K) (h2 : ¬path.drop K.length = [])
    (hsub : (node.mk K (some v) C I W Ca NodeType.static).IsSubdirNode = true) :
    node.lookupWalk (node.mk K (some v) C I W Ca NodeType.static) path params mts
        backup fb =
      node.lookupTail (node.mk K (some v) C I W Ca NodeType.static)
        (path.drop K.length) params mts (some v) := by
  rw [node.lookupWalk.eq_def]
  dsimp only
  rw [if_pos h1, if_neg h2, if_pos hsub]

theorem walk_static_done (K : Str) (V : Option value) (C : List node) (I : List Char)
    (W Ca : Option node) (path : Str) (params : List Param) (mts : Bool)
    (backup : Option node) (fb : Option value)
    (h1 : path.take K.length = K) (h2 : path.drop K.length = []) :
    node.lookupWalk (node.mk K V C I W Ca NodeType.static) path params mts backup fb =
      (orFallback V fb, params) := by
  rw [node.lookupWalk.eq_def]
  dsimp only
  rw [if_pos h1, if_pos h2]

theorem walk_static_descend (K : Str) (V : Option value) (C : List node) (I : List Char)
    (W Ca : Option node) (path : Str) (params : List Param) (mts : Bool)
    (backup : Option node) (fb : Option value)
    (h1 : path.take K.length = K) (h2 : ¬path.drop K.length = []) :
    node.lookupWalk (node.mk K V C I W Ca NodeType.static) path params mts backup fb =
      node.lookupTail (node.mk K V C I W Ca NodeType.static) (path.drop K.length)
        params mts
        (if (node.mk K V C I W Ca NodeType.static).IsSubdirNode = true then V else fb) := by
  rw [node.lookupWalk.eq_def]
  dsimp only
  rw [if_pos h1, if_neg h2]

theorem walk_static_redirect (K : Str) (V : Option value) (C : List node) (I : List Char)
    (W Ca : Option node) (path : Str) (params : List Param) (mts : Bool)
    (fb : Option value) (h1 : ¬path.take K.length = K)
    (h2 : (V.isSome && decide (path ++ ['/'] = K)) = true) :
    node.lookupWalk (node.mk K V C I W Ca NodeType.static) path params mts none fb =
      (some redirectValue, params) := by
  rw [node.lookupWalk.eq_def]
  dsimp only
  rw [if_neg h1, if_pos h2]

theorem walk_static_fail (K : Str) (V : Option value) (C : List node) (I : List Char)
    (W Ca : Option node) (path : Str) (params : List Param) (mts : Bool)
    (fb : Option value) (h1 : ¬path.take K.length = K)
    (h2 : ¬(V.isSome && decide (path ++ ['/'] = K)) = true) :
    node.lookupWalk (node.mk K V C I W Ca NodeType.static) path params mts none fb =
      (fb, params) := by
  rw [node.lookupWalk.eq_def]
  dsimp only
  rw [if_neg h1, if_neg h2]
  cases fb <;> rfl

theorem walk_wc_done (K : Str) (V : Option value) (C : List node) (I : List Char)
    (W Ca : Option node) (path : Str) (params : List Param) (mts : Bool)
    (backup : Option node) (fb : Option value)
    (hf : path.findIdx? (fun c => c = '/') = none) :
    node.lookupWalk (node.mk K V C I W Ca NodeType.wildcard) path params mts backup fb =
      (orFallback V fb, params ++ [⟨K, path⟩]) := by
  rw [node.lookupWalk.eq_def]
  dsimp only
  rw [hf]

theorem walk_wc_descend (K : Str) (V : Option value) (C : List node) (I : List Char)
    (W Ca : Option node) (path : Str) (params : List Param) (mts : Bool)
    (backup : Option node) (fb : Option value) (idx : Nat)
    (hf : path.findIdx? (fun c => c = '/') = some idx) :
    node.lookupWalk (node.mk K V C I W Ca NodeType.wildcard) path params mts backup fb =
      node.lookupTail (node.mk K V C I W Ca NodeType.wildcard) (path.drop idx)
        (params ++ [⟨K, path.take idx⟩]) mts fb := by
  rw [node.lookupWalk.eq_def]
  dsimp only
  rw [hf]

theorem walk_catchall (K : Str) (V : Option value) (C : List node) (I : List Char)
    (W Ca : Option node) (path : Str) (params : List Param) (mts : Bool)
    (backup : Option node) (fb : Option value) :
    node.lookupWalk (node.mk K V C I W Ca NodeType.catchall) path params mts backup fb =
      (orFallback V fb, params ++ [⟨K, path⟩]) := by
  rw [node.lookupWalk.eq_def]

theorem tail_nil (n : node) (params : List Param) (mts : Bool) (fb : Option value) :
    node.lookupTail n [] params mts fb = (fb, params) := by
  obtain ⟨K, V, C, I, W, Ca, t⟩ := n
  rw [node.lookupTail.eq_def]
  simp [orFallback]

theorem tail_child (K : Str) (V : Option value) (C : List node) (I : List Char)
    (W Ca : Option node) (b0 : Char) (rest : Str) (params : List Param) (mts : Bool)
    (fb fb2 : Option value) (r : Option value × List Param)
    (hfb2 : (if (mts && decide (b0 :: rest = ['/']) && V.isSome) = true then V else fb)
      = fb2)
    (hLC : node.lookupChildren I C b0 (b0 :: rest) params mts W fb2 = some r) :
    node.lookupTail (node.mk K V C I W Ca t) (b0 :: rest) params mts fb = r := by
  rw [node.lookupTail.eq_def]
  dsimp only
  rw [hfb2, hLC]

theorem tail_catchall (K : Str) (V : Option value) (C : List node) (I : List Char)
    (W : Option node) (ca : node) (t : NodeType) (b0 : Char) (rest : Str)
    (params : List Param) (mts : Bool) (fb fb2 : Option value)
    (hfb2 : (if (mts && decide (b0 :: rest = ['/']) && V.isSome) = true then V else fb)
      = fb2)
    (hLC : node.lookupChildren I C b0 (b0 :: rest) params mts W fb2 = none) :
    node.lookupTail (node.mk K V C I W (some ca) t) (b0 :: rest) params mts fb =
      node.lookupWalk ca (b0 :: rest) params mts W fb2 := by
  rw [node.lookupTail.eq_def]
  dsimp only
  rw [hfb2, hLC]

theorem tail_wildcard (K : Str) (V : Option value) (C : List node) (I : List Char)
    (w : node) (t : NodeType) (b0 : Char) (rest : Str)
    (params : List Param) (mts : Bool) (fb fb2 : Option value)
    (hfb2 : (if (mts && decide (b0 :: rest = ['/']) && V.isSome) = true then V else fb)
      = fb2)
    (hLC : node.lookupChildren I C b0 (b0 :: rest) params mts (some w) fb2 = none) :
    node.lookupTail (node.mk K V C I (some w) none t) (b0 :: rest) params mts fb =
      node.lookupWalk w (b0 :: rest) params mts none fb2 := by
  rw [node.lookupTail.eq_def]
  dsimp only
  rw [hfb2, hLC]

theorem tail_fail (K : Str) (V : Option value) (C : List node) (I : List Char)
    (t : NodeType) (b0 : Char) (rest : Str)
    (params : List Param) (mts : Bool) (fb fb2 : Option value)
    (hfb2 : (if (mts && decide (b0 :: rest = ['/']) && V.isSome) = true then V else fb)
      = fb2)
    (hLC : node.lookupChildren I C b0 (b0 :: rest) params mts none fb2 = none) :
    node.lookupTail (node.mk K V C I none none t) (b0 :: rest) params mts fb =
      (fb2, params) := by
  rw [node.lookupTail.eq_def]
  dsimp only
  rw [hfb2, hLC]
  cases fb2 <;> rfl

theorem lc_hit (i : Char) (is : List Char) (c : node) (cs : List node) (path : Str)
    (params : List Param) (mts : Bool) (backup : Option node) (fb : Option value) :
    node.lookupChildren (i :: is) (c :: cs) i path params mts backup fb =
      some (node.lookupWalk c path params mts backup fb) := by
  rw [node.lookupChildren.eq_def]
  try dsimp only
  rw [if_pos rfl]

theorem lc_miss (i : Char) (is : List Char) (c : node) (cs : List node) (t : Char)
    (path : Str) (params : List Param) (mts : Bool) (backup : Option node)
    (fb : Option value) (hne : ¬i = t) :
    node.lookupChildren (i :: is) (c :: cs) t path params mts backup fb =
      node.lookupChildren is cs t path params mts backup fb := by
  rw [node.lookupChildren.eq_def]
  try dsimp only
  rw [if_neg hne]

theorem lc_nil_left (cs : List node) (t : Char) (path : Str) (params : List Param)
    (mts : Bool) (backup : Option node) (fb : Option value) :
    node.lookupChildren [] cs t path params mts backup fb = none := by
  rw [node.lookupChildren.eq_def]
  try dsimp only

theorem lc_nil_right (i : Char) (is : List Char) (t : Char) (path : Str)
    (params : List Param) (mts : Bool) (backup : Option node) (fb : Option value) :
    node.lookupChildren (i :: is) [] t path params mts backup fb = none := by
  rw [node.lookupChildren.eq_def]
  try dsimp only

theorem fallback_preempted :
    ∀ (n : node) (path : Str) (params : List Param) (mts : Bool)
      (backup : Option node) (fallback : Option value),
      node.lookupWalk n path params mts backup fallback =
        (orFallback (node.lookupWalk n path params mts backup none).1 fallback,
         (node.lookupWalk n path params mts backup none).2) := by
  refine node.lookupWalk.induct
    (fun n path params mts backup fallback =>
      node.lookupWalk n path params mts backup fallback =
        (orFallback (node.lookupWalk n path params mts backup none).1 fallback,
         (node.lookupWalk n path params mts backup none).2))
    (fun n path params mts fallback =>
      node.lookupTail n path params mts fallback =
        (orFallback (node.lookupTail n path params mts none).1 fallback,
         (node.lookupTail n path params mts none).2))
    (fun is cs t path params mts backup fallback =>
      node.lookupChildren is cs t path params mts backup fallback =
        (node.lookupChildren is cs t path params mts backup none).map
          (fun rp => (orFallback rp.1 fallback, rp.2)))
    ?_ ?_ ?_ ?_ ?_ ?_ ?_ ?_ ?_ ?_ ?_ ?_ ?_ ?_ ?_ ?_
  -- c1: static, path exhausted
  · intro path params mts backup fb K V C I W Ca h1
    dsimp only
    intro h2
    rw [walk_static_done K V C I W Ca path params mts backup fb h1 h2,
      walk_static_done K V C I W Ca path params mts backup none h1 h2]
    dsimp only
    rw [orFallback_orFallback]
  -- c2: static, descend
  · intro path params mts backup fb K V C I W Ca h1
    dsimp only
    intro h2 ih
    simp only [dite_eq_ite] at ih
    rw [walk_static_descend K V C I W Ca path params mts backup fb h1 h2,
      walk_static_descend K V C I W Ca path params mts backup none h1 h2]
    by_cases hsub : (node.mk K V C I W Ca NodeType.static).IsSubdirNode = true
    · simp only [if_pos hsub] at ih ⊢
      have hvs : V.isSome = true := by simpa [node.Value] using isSubdir_isSome _ hsub
      have hs := tail_some (node.mk K V C I W Ca NodeType.static)
        (path.drop K.length) params mts V hvs
      rw [orFallback_of_isSome _ _ hs]
    · simp only [if_neg hsub] at ih ⊢
      exact ih
  -- c3: static dead-end, jump to backup
  · intro path params mts fb K V C I W Ca h1 w ih
    rw [staticDeadEnd_resumes_at_backup K V C I W Ca w path params mts fb h1,
      staticDeadEnd_resumes_at_backup K V C I W Ca w path params mts none h1]
    exact ih
  -- c4: redirect synthesis
  · intro path params mts fb K V C I W Ca h1 h2
    rw [walk_static_redirect K V C I W Ca path params mts fb h1 h2,
      walk_static_redirect K V C I W Ca path params mts none h1 h2]
    try rfl
  -- c5: static failure
  · intro path params mts fb K V C I W Ca h1 h2
    rw [walk_static_fail K V C I W Ca path params mts fb h1 h2,
      walk_static_fail K V C I W Ca path params mts none h1 h2]
    try rfl
  -- c6: wildcard terminal
  · intro path params mts backup fb K V C I W Ca hf
    rw [walk_wc_done K V C I W Ca path params mts backup fb hf,
      walk_wc_done K V C I W Ca path params mts backup none hf]
    dsimp only
    rw [orFallback_orFallback]
  -- c7: wildcard descend
  · intro path params mts backup fb K V C I W Ca idx hf ih
    rw [walk_wc_descend K V C I W Ca path params mts backup fb idx hf,
      walk_wc_descend K V C I W Ca path params mts backup none idx hf]
    exact ih
  -- c8: catchall terminal
  · intro path params mts backup fb K V C I W Ca
    rw [walk_catchall K V C I W Ca path params mts backup fb,
      walk_catchall K V C I W Ca path params mts backup none]
    dsimp only
    rw [orFallback_orFallback]
  -- c9: tail on the empty path
  · intro params mts fb K V C I W Ca t
    rw [tail_nil (node.mk K V C I W Ca t) params mts fb,
      tail_nil (node.mk K V C I W Ca t) params mts none]
    try rfl
  -- c10: tail, a child claims the first byte
  · intro params mts fb K V C I W Ca t b0 key0 r
    dsimp only
    intro hLC ih3
    simp only [dite_eq_ite] at hLC ih3
    by_cases hov : (mts && decide (b0 :: key0 = ['/']) && V.isSome) = true
    · rw [if_pos hov] at hLC ih3
      rw [tail_child K V C I W Ca b0 key0 params mts fb V r (if_pos hov) hLC,
        tail_child K V C I W Ca b0 key0 params mts none V r (if_pos hov) hLC]
      have hvs : V.isSome = true := (Bool.and_eq_true_iff.mp hov).2
      have hs := lc_some I C b0 (b0 :: key0) params mts W V hvs r hLC
      rw [orFallback_of_isSome _ _ hs]
    · rw [if_neg hov] at hLC ih3
      rw [hLC] at ih3
      cases hln : node.lookupChildren I C b0 (b0 :: key0) params mts W none with
      | none =>
        rw [hln] at ih3
        simp at ih3
      | some r0 =>
        rw [hln] at ih3
        simp only [Option.map_some'] at ih3
        obtain rfl := Option.some.inj ih3
        rw [tail_child K V C I W Ca b0 key0 params mts fb fb _ (if_neg hov) hLC,
          tail_child K V C I W Ca b0 key0 params mts none none r0 (if_neg hov) hln]
        try rfl
  -- c11: tail, no child, catchall present
  · intro params mts fb K V C I W t b0 key0 w
    dsimp only
    intro hLC ih3 ih1
    simp only [dite_eq_ite] at hLC ih3 ih1
    by_cases hov : (mts && decide (b0 :: key0 = ['/']) && V.isSome) = true
    · rw [if_pos hov] at hLC ih3 ih1
      rw [tail_catchall K V C I W w t b0 key0 params mts fb V (if_pos hov) hLC,
        tail_catchall K V C I W w t b0 key0 params mts none V (if_pos hov) hLC]
      have hvs : V.isSome = true := (Bool.and_eq_true_iff.mp hov).2
      have hs := walk_some w (b0 :: key0) params mts W V hvs
      rw [orFallback_of_isSome _ _ hs]
    · rw [if_neg hov] at hLC ih3 ih1
      rw [hLC] at ih3
      have hln : node.lookupChildren I C b0 (b0 :: key0) params mts W none = none := by
        cases hx : node.lookupChildren I C b0 (b0 :: key0) params mts W none with
        | none => rfl
        | some r0 =>
          rw [hx] at ih3
          simp at ih3
      rw [tail_catchall K V C I W w t b0 key0 params mts fb fb (if_neg hov) hLC,
        tail_catchall K V C I W w t b0 key0 params mts none none (if_neg hov) hln]
      exact ih1
  -- c12: tail, no child, no catchall, wildcard present
  · intro params mts fb K V C I t b0 key0 w
    dsimp only
    intro hLC ih3 ih1
    simp only [dite_eq_ite] at hLC ih3 ih1
    by_cases hov : (mts && decide (b0 :: key0 = ['/']) && V.isSome) = true
    · rw [if_pos hov] at hLC ih3 ih1
      rw [tail_wildcard K V C I w t b0 key0 params mts fb V (if_pos hov) hLC,
        tail_wildcard K V C I w t b0 key0 params mts none V (if_pos hov) hLC]
      have hvs : V.isSome = true := (Bool.and_eq_true_iff.mp hov).2
      have hs := walk_some w (b0 :: key0) params mts none V hvs
      rw [orFallback_of_isSome _ _ hs]
    · rw [if_neg hov] at hLC ih3 ih1
      rw [hLC] at ih3
      have hln : node.lookupChildren I C b0 (b0 :: key0) params mts (some w) none
          = none := by
        cases hx : node.lookupChildren I C b0 (b0 :: key0) params mts (some w) none with
        | none => rfl
        | some r0 =>
          rw [hx] at ih3
          simp at ih3
      rw [tail_wildcard K V C I w t b0 key0 params mts fb fb (if_neg hov) hLC,
        tail_wildcard K V C I w t b0 key0 params mts none none (if_neg hov) hln]
      exact ih1
  -- c13: tail, nothing to try
  · intro params mts fb K V C I t b0 key0
    dsimp only
    intro hLC ih3
    simp only [dite_eq_ite] at hLC ih3
    by_cases hov : (mts && decide (b0 :: key0 = ['/']) && V.isSome) = true
    · rw [if_pos hov] at hLC ih3
      rw [tail_fail K V C I t b0 key0 params mts fb V (if_pos hov) hLC,
        tail_fail K V C I t b0 key0 params mts none V (if_pos hov) hLC]
      have hvs : V.isSome = true := (Bool.and_eq_true_iff.mp hov).2
      cases V with
      | none => simp at hvs
      | some v => rfl
    · rw [if_neg hov] at hLC ih3
      rw [hLC] at ih3
      have hln : node.lookupChildren I C b0 (b0 :: key0) params mts none none
          = none := by
        cases hx : node.lookupChildren I C b0 (b0 :: key0) params mts none none with
        | none => rfl
        | some r0 =>
          rw [hx] at ih3
          simp at ih3
      rw [tail_fail K V C I t b0 key0 params mts fb fb (if_neg hov) hLC,
        tail_fail K V C I t b0 key0 params mts none none (if_neg hov) hln]
      try rfl
  -- c14: child scan, index hit
  · intro path params mts backup fb i is c cs ih1
    rw [lc_hit i is c cs path params mts backup fb,
      lc_hit i is c cs path params mts backup none]
    simp only [Option.map_some']
    rw [ih1]
  -- c15: child scan, index miss
  · intro t path params mts backup fb i is c cs hne ih3
    rw [lc_miss i is c cs t path params mts backup fb hne,
      lc_miss i is c cs t path params mts backup none hne]
    exact ih3
  -- c16: child scan exhausted
  · intro is cs t path params mts backup fb himp
    cases is with
    | nil =>
      rw [lc_nil_left, lc_nil_left]
      try rfl
    | cons i is' =>
      cases cs with
      | nil =>
        rw [lc_nil_right, lc_nil_right]
        try rfl
      | cons c cs' => exact (himp i is' c cs' rfl rfl).elim

/-- C2: longest-prefix subtree fallback.  Universal conjuncts over every trie,
request path and walk state: (1) the walk's outcome under an already-recorded
fallback equals the outcome of the remaining walk — which records any deeper
subtree value — with the earlier fallback surfacing only when that remainder
produces nothing, and the captured parameters never depending on the fallback;
(2) a subtree node (valued, key ending in `/`) matched mid-path replaces any
previously recorded fallback with its own value, so of two subtree patterns
`s1/` and `s2/` with `s1` a prefix of `s2` the deeper `s2/` supersedes `s1/`
during the walk; (3) when nothing deeper matches, the walk returns exactly
the recorded subtree value.  Concretely: with `/api/v1/books` (fixed) and
`/api/v1/books/` (subtree) registered, `/api/v1/books` matches the fixed
pattern and `/api/v1/books/cats_cradle` the subtree; with the nested subtree
patterns `/a/` and `/a/b/` registered, `/a/b/c` (which both match, `/a/`
being a prefix of `/a/b/`) takes the value of the deeper `/a/b/`, while
`/a/x` (which only `/a/` matches) takes `/a/`. -/
theorem claim_C2 :
    (∀ (n : node) (path : Str) (params : List Param) (mts : Bool)
        (backup : Option node) (fb : Option value),
      node.lookupWalk n path params mts backup fb =
        (orFallback (node.lookupWalk n path params mts backup none).1 fb,
         (node.lookupWalk n path params mts backup none).2)) ∧
    (∀ (K : Str) (v : value) (C : List node) (I : List Char) (W Ca : Option node)
        (path : Str) (params : List Param) (mts : Bool) (backup : Option node)
        (fb : Option value),
      path.take K.length = K → ¬path.drop K.length = [] →
      (node.mk K (some v) C I W Ca NodeType.static).IsSubdirNode = true →
      node.lookupWalk (node.mk K (some v) C I W Ca NodeType.static) path params mts
          backup fb =
        node.lookupTail (node.mk K (some v) C I W Ca NodeType.static)
          (path.drop K.length) params mts (some v)) ∧
    (∀ (n : node) (path : Str) (params : List Param) (mts : Bool)
        (backup : Option node) (v : value),
      (node.lookupWalk n path params mts backup none).1 = none →
      node.lookupWalk n path params mts backup (some v) =
        (some v, (node.lookupWalk n path params mts backup none).2)) ∧
    registerAll New ["/api/v1/books".toList, "/api/v1/books/".toList] =
        Except.ok ⟨booksTree, false⟩ ∧
      node.Lookup booksTree "/api/v1/books".toList [] false =
        (some ⟨Handler.hid 0, "/api/v1/books".toList⟩, []) ∧
      node.Lookup booksTree "/api/v1/books/cats_cradle".toList [] false =
        (some ⟨Handler.hid 1, "/api/v1/books/".toList⟩, []) ∧
      registerAll New ["/a/".toList, "/a/b/".toList] = Except.ok ⟨abTree, false⟩ ∧
      node.Lookup abTree "/a/b/c".toList [] false =
        (some ⟨Handler.hid 1, "/a/b/".toList⟩, []) ∧
      node.Lookup abTree "/a/x".toList [] false =
        (some ⟨Handler.hid 0, "/a/".toList⟩, []) :=
  ⟨fallback_preempted, subdir_overwrites,
    fun n path params mts backup v hnone => by
      rw [fallback_preempted n path params mts backup (some v), hnone]
      rfl,
    booksTree_build, booksTree_fixed, booksTree_subtree, abTree_build, abTree_deep,
    abTree_shallow⟩

/-- Witness for the subtree-overwrite conjunct of `claim_C2`: the subtree
node keyed `/` holding the `/api/v1/books/` handler, matched mid-path on
`/cats`, replaces the previously recorded fallback with its own value. -/
theorem claim_C2_witness :
    node.lookupWalk
        (node.mk "/".toList (some ⟨Handler.hid 1, "/api/v1/books/".toList⟩) [] [] none
          none NodeType.static)
        "/cats".toList [] false none (some ⟨Handler.hid 0, "/api/".toList⟩) =
      node.lookupTail
        (node.mk "/".toList (some ⟨Handler.hid 1, "/api/v1/books/".toList⟩) [] [] none
          none NodeType.static)
        ("/cats".toList.drop "/".toList.length) [] false
        (some ⟨Handler.hid 1, "/api/v1/books/".toList⟩) :=
  claim_C2.2.1 "/".toList ⟨Handler.hid 1, "/api/v1/books/".toList⟩ [] [] none none
    "/cats".toList [] false none (some ⟨Handler.hid 0, "/api/".toList⟩)
    (by decide) (by decide) (by decide)

end Muxter
